import Mathlib

/-!
Verification of the genre/identifier normalization and HMAC request-signing
logic of the rex-radio-wrench repository (src/dialogs/settings_dialog.py,
src/station_info_page.py, src/main_window.py, src/api_client.py).

Python strings are embedded as Lean `String` / `List Char`; bytes as `List Nat`
(each < 256); loosely typed Python values as the inductive `PyVal`; Python
exceptions as `Except PyErr`.  Machine 64-bit words in SHA-512 are `Nat`
with explicit reduction modulo 2 ^ 64.
-/

/-! ## Python string primitives -/

/-- Characters stripped by Python `str.strip()` / matched by `re` `\s`
(ASCII fragment; the model covers the ASCII whitespace code points,
which is exact for the ASCII data handled by this program). -/
def isPySpace (c : Char) : Bool :=
  c.toNat = 32 || c.toNat = 9 || c.toNat = 10 || c.toNat = 13 ||
  c.toNat = 11 || c.toNat = 12 || c.toNat = 28 || c.toNat = 29 ||
  c.toNat = 30 || c.toNat = 31 || c.toNat = 133

/-- ASCII lowercasing of one character, as Python `str.lower` acts on ASCII. -/
def pyLowerChar (c : Char) : Char :=
  if 65 ≤ c.toNat ∧ c.toNat ≤ 90 then Char.ofNat (c.toNat + 32) else c

/-- ASCII uppercasing of one character, as Python `str.upper` acts on ASCII. -/
def pyUpperChar (c : Char) : Char :=
  if 97 ≤ c.toNat ∧ c.toNat ≤ 122 then Char.ofNat (c.toNat - 32) else c

/-- Drop matching characters from the end of a list (model of the right half
of Python `str.strip`). -/
def dropEndWhile (p : Char → Bool) : List Char → List Char
  | [] => []
  | c :: t =>
    let r := dropEndWhile p t
    if r = [] ∧ p c then [] else c :: r

/-- Python `str.strip()` on a character list. -/
def pyStripChars (l : List Char) : List Char :=
  dropEndWhile isPySpace (l.dropWhile isPySpace)

/-- Python `str.strip()`. -/
def pyStripStr (s : String) : String :=
  (pyStripChars s.toList).asString

/-- Python `str.upper()` (ASCII model). -/
def pyUpper (s : String) : String :=
  (s.toList.map pyUpperChar).asString

/-! ## slugify (src/dialogs/settings_dialog.py lines 32-46) -/

/-- Characters matching the regex class `[a-z0-9]`. -/
def isLowerAlnum (c : Char) : Bool :=
  (97 ≤ c.toNat && c.toNat ≤ 122) || (48 ≤ c.toNat && c.toNat ≤ 57)

/-- Model of `unicodedata.normalize("NFKD", s).encode("ascii", "ignore")`:
identity on ASCII characters, non-ASCII characters are dropped.  (The real
NFKD step can first decompose a non-ASCII character into an ASCII base
character plus combining marks; that transliteration table is elided.  The
composite is exact on ASCII input, and every later pipeline stage only ever
receives ASCII characters.) -/
def asciiIgnore (l : List Char) : List Char :=
  l.filter (fun c => c.toNat < 128)

/-- Replace every occurrence of character `t` with the string `rep`
(model of Python `str.replace` with a one-character pattern). -/
def replaceCharWith (t : Char) (rep : List Char) (l : List Char) : List Char :=
  l.flatMap (fun c => if c = t then rep else [c])

/-- `re.sub(r"[^a-z0-9]+", "_", s)`: replace each maximal run of characters
outside `[a-z0-9]` with one underscore.  The flag records whether we are
inside such a run (an underscore has already been emitted for it). -/
def collapseNonAlnum : Bool → List Char → List Char
  | _, [] => []
  | inRun, c :: t =>
    if isLowerAlnum c then c :: collapseNonAlnum false t
    else if inRun then collapseNonAlnum true t
    else '_' :: collapseNonAlnum true t

/-- `re.sub(r"_+", "_", s)`: collapse runs of underscores to one.  The flag
records whether the previous kept character was an underscore. -/
def collapseUnderscore : Bool → List Char → List Char
  | _, [] => []
  | prevU, c :: t =>
    if c = '_' then
      (if prevU then collapseUnderscore true t else '_' :: collapseUnderscore true t)
    else c :: collapseUnderscore false t

/-- Python `s.strip("_")`. -/
def stripUnderscore (l : List Char) : List Char :=
  dropEndWhile (fun c => c = '_') (l.dropWhile (fun c => c = '_'))

/-- The string `" and "` substituted for `&` and `+`. -/
def andRep : List Char := [' ', 'a', 'n', 'd', ' ']

/-- Character pipeline of `slugify` before the two bespoke fixups. -/
def slugChars (l : List Char) : List Char :=
  stripUnderscore
    (collapseUnderscore false
      (collapseNonAlnum false
        (replaceCharWith '+' andRep
          (replaceCharWith '&' andRep
            (pyStripChars ((asciiIgnore l).map pyLowerChar))))))

/-- The two bespoke special cases at the end of `slugify`. -/
def slugFixup (s : String) : String :=
  let s1 := if s = "r_b" then "rb" else s
  if s1 = "r_and_b" then "rnb" else s1

/-- `slugify` from src/dialogs/settings_dialog.py: NFKD + ASCII filter,
lowercase, strip, `&`/`+` to `" and "`, non-alphanumeric runs to `_`,
collapse and strip underscores, then the `r_b`/`r_and_b` fixups. -/
def slugify (label : String) : String :=
  slugFixup (slugChars label.toList).asString

/-- The static default genre catalog `DEFAULT_GENRE_LABELS`. -/
def DEFAULT_GENRE_LABELS : List String :=
  ["Rock", "Pop", "Jazz", "Classical", "Electronic", "Hip-Hop", "Country",
   "R&B", "Blues", "Folk", "Reggae", "Punk", "Metal", "Indie", "Alternative",
   "Funk", "Soul", "Gospel", "Latin", "World", "Ambient", "Techno", "House",
   "Trance", "Drum & Bass", "Dubstep", "Trap", "Lo-Fi", "Experimental"]

/-- Association-list lookup used to model Python `dict.get` on a
string-keyed dict (the dicts modelled this way have pairwise distinct keys,
so first-match lookup agrees with Python). -/
def strLookup (m : List (String × String)) (k : String) : Option String :=
  (m.find? (fun e => e.1 == k)).map (·.2)

/-- `default_id_to_label = {slugify(lbl): lbl for lbl in DEFAULT_GENRE_LABELS}`. -/
def defaultIdToLabel : List (String × String) :=
  DEFAULT_GENRE_LABELS.map (fun lbl => (slugify lbl, lbl))

/-! ## humanize (`_humanize_slug`, identical in station_info_page.py and
main_window.py) -/

/-- Fuel-bounded worker for `replaceSubstr`; the fuel is an upper bound on
the list length, so the zero-fuel branch is never reached from the wrapper. -/
def replaceSubstrAux (pat rep : List Char) : Nat → List Char → List Char
  | _, [] => []
  | 0, l => l
  | fuel + 1, c :: t =>
    if !pat.isEmpty && pat.isPrefixOf (c :: t) then
      rep ++ replaceSubstrAux pat rep fuel ((c :: t).drop pat.length)
    else c :: replaceSubstrAux pat rep fuel t

/-- Replace non-overlapping occurrences of `pat` (non-empty) by `rep`,
left to right: model of Python `str.replace` for a multi-character pattern. -/
def replaceSubstr (pat rep : List Char) (l : List Char) : List Char :=
  replaceSubstrAux pat rep l.length l

/-- One character is ASCII-cased (a letter) for the purposes of `str.title`. -/
def isAsciiAlpha (c : Char) : Bool :=
  (65 ≤ c.toNat && c.toNat ≤ 90) || (97 ≤ c.toNat && c.toNat ≤ 122)

/-- Python `str.title()` (ASCII model): a cased character is uppercased when
the previous character is not cased, lowercased otherwise. -/
def pyTitleChars : Bool → List Char → List Char
  | _, [] => []
  | prevCased, c :: t =>
    if isAsciiAlpha c then
      (if prevCased then pyLowerChar c else pyUpperChar c) :: pyTitleChars true t
    else c :: pyTitleChars false t

/-- `_humanize_slug`: underscores to spaces, `" and "` back to `" & "`,
then titlecase; empty input short-circuits to the empty string. -/
def humanizeSlug (s : String) : String :=
  if s = "" then ""
  else
    (pyTitleChars false
      (replaceSubstr " and ".toList " & ".toList
        (replaceCharWith '_' [' '] s.toList))).asString

/-! ## Loosely typed Python values -/

/-- A Python value as seen by this program: `None`, booleans, ints, floats
(as exact rationals; this program never computes with them), strings, lists,
dicts (as an association list of the dict's items, unique keys in insertion
order) and `obj`, an opaque non-JSON-serializable object whose `str()` is the
stored text. -/
inductive PyVal where
  | none
  | bool (b : Bool)
  | int (n : Int)
  | float (q : Rat)
  | str (s : String)
  | list (xs : List PyVal)
  | dict (entries : List (PyVal × PyVal))
  | obj (rep : String)

/-- A Python exception, by class. -/
inductive PyErr where
  | typeError
  | valueError
  | attributeError
  deriving DecidableEq

/-- Python truthiness. -/
def pyTruthy : PyVal → Bool
  | .none => false
  | .bool b => b
  | .int n => n != 0
  | .float q => q != 0
  | .str s => s != ""
  | .list xs => !xs.isEmpty
  | .dict d => !d.isEmpty
  | .obj _ => true

/-- `d.get(k)` for a string key `k` on a modelled dict: only a string key
equal to `k` matches (Python equality between a str and a non-str key of the
kinds above is always false). -/
def dictGet (d : List (PyVal × PyVal)) (k : String) : Option PyVal :=
  (d.find? (fun kv => match kv.1 with | .str s => s == k | _ => false)).map (·.2)

/-! ## Python `int()` (used as the sort key for mapping payloads) -/

/-- Does a digits-with-underscores literal body satisfy Python's rules:
non-empty, only digits and underscores, no leading/trailing underscore and
no two adjacent underscores? -/
def validIntBody : List Char → Bool
  | [] => false
  | l => l.all (fun c => c.isDigit || c = '_') &&
         l.head? ≠ some '_' && l.getLast? ≠ some '_' &&
         !(l.zip l.tail).any (fun p => p.1 = '_' && p.2 = '_')

/-- Numeric value of a digits-with-underscores body. -/
def intBodyVal (l : List Char) : Nat :=
  l.foldl (fun acc c => if c.isDigit then acc * 10 + (c.toNat - 48) else acc) 0

/-- Python `int(s)` for a string: strip whitespace, optional sign, decimal
digits with optional single underscores between digits; anything else is a
`ValueError`. -/
def pyIntOfString (s : String) : Except PyErr Int :=
  let l := pyStripChars s.toList
  match l with
  | '+' :: body => if validIntBody body then .ok (intBodyVal body) else .error .valueError
  | '-' :: body => if validIntBody body then .ok (-(intBodyVal body : Int)) else .error .valueError
  | body => if validIntBody body then .ok (intBodyVal body) else .error .valueError

/-- Python `int(v)`: ints pass through, bools become 0/1, floats truncate
toward zero, strings are parsed, everything else is a `TypeError`. -/
def pyInt : PyVal → Except PyErr Int
  | .int n => .ok n
  | .bool b => .ok (if b then 1 else 0)
  | .float q => .ok (q.num.tdiv q.den)
  | .str s => pyIntOfString s
  | _ => .error .typeError

/-! ## json.loads (model of the stdlib parser, recursive descent with fuel) -/

/-- Left and right curly brace characters. -/
def lbrace : Char := Char.ofNat 123

def rbrace : Char := Char.ofNat 125

/-- JSON insignificant whitespace. -/
def isJsonWs (c : Char) : Bool :=
  c = ' ' || c = '\t' || c = '\n' || c = '\r'

/-- Hex digit value. -/
def hexVal (c : Char) : Option Nat :=
  if 48 ≤ c.toNat ∧ c.toNat ≤ 57 then some (c.toNat - 48)
  else if 97 ≤ c.toNat ∧ c.toNat ≤ 102 then some (c.toNat - 87)
  else if 65 ≤ c.toNat ∧ c.toNat ≤ 70 then some (c.toNat - 55)
  else none

/-- Parse exactly four hex digits. -/
def parse4Hex : List Char → Option (Nat × List Char)
  | a :: b :: c :: d :: rest =>
    match hexVal a, hexVal b, hexVal c, hexVal d with
    | some x, some y, some z, some w => some (((x * 16 + y) * 16 + z) * 16 + w, rest)
    | _, _, _, _ => none
  | _ => none

/-- Parse the remainder of a JSON string literal (after the opening quote).
Surrogate pairs are combined; a lone surrogate is a parse error in this model
(Python would build a string containing a surrogate code point, which a Lean
`Char` cannot carry; this program never feeds such input back in). -/
def parseJString : Nat → List Char → Except Unit (List Char × List Char)
  | 0, _ => .error ()
  | _, [] => .error ()
  | fuel + 1, c :: rest =>
    if c = '"' then .ok ([], rest)
    else if c = '\\' then
      match rest with
      | [] => .error ()
      | e :: rest2 =>
        let simpleEsc : Option Char :=
          if e = '"' then some '"' else if e = '\\' then some '\\'
          else if e = '/' then some '/' else if e = 'b' then some (Char.ofNat 8)
          else if e = 'f' then some (Char.ofNat 12) else if e = 'n' then some '\n'
          else if e = 'r' then some '\r' else if e = 't' then some '\t' else none
        match simpleEsc with
        | some ch => do
          let (tail, rem) ← parseJString fuel rest2
          .ok (ch :: tail, rem)
        | none =>
          if e = 'u' then
            match parse4Hex rest2 with
            | none => .error ()
            | some (n, rest3) =>
              if 55296 ≤ n ∧ n ≤ 56319 then
                match rest3 with
                | '\\' :: 'u' :: rest4 =>
                  match parse4Hex rest4 with
                  | some (m, rest5) =>
                    if 56320 ≤ m ∧ m ≤ 57343 then do
                      let (tail, rem) ← parseJString fuel rest5
                      .ok (Char.ofNat (65536 + (n - 55296) * 1024 + (m - 56320)) :: tail, rem)
                    else .error ()
                  | none => .error ()
                | _ => .error ()
              else if 56320 ≤ n ∧ n ≤ 57343 then .error ()
              else do
                let (tail, rem) ← parseJString fuel rest3
                .ok (Char.ofNat n :: tail, rem)
          else .error ()
    else if c.toNat < 32 then .error ()
    else do
      let (tail, rem) ← parseJString fuel rest
      .ok (c :: tail, rem)

/-- Parse a JSON number: integers become `.int`, literals with a fraction or
exponent become `.float` holding the exact decimal value. -/
def parseJNumber (l : List Char) : Except Unit (PyVal × List Char) :=
  let (sign, l1) := match l with
    | '-' :: t => ((-1 : Int), t)
    | t => ((1 : Int), t)
  let ipart := l1.takeWhile Char.isDigit
  let l2 := l1.dropWhile Char.isDigit
  if ipart = [] then .error ()
  else if ipart.length > 1 ∧ ipart.head? = some '0' then .error ()
  else
    let ival : Nat := ipart.foldl (fun a c => a * 10 + (c.toNat - 48)) 0
    let (fpart, l3) :=
      match l2 with
      | '.' :: t => (t.takeWhile Char.isDigit, t.dropWhile Char.isDigit)
      | t => ([], t)
    if l2.head? = some '.' ∧ fpart = [] then .error ()
    else
      let hasExp := l3.head? = some 'e' ∨ l3.head? = some 'E'
      let l4 := if hasExp then l3.tail else l3
      let (esign, l5) := match l4 with
        | '+' :: t => ((1 : Int), t)
        | '-' :: t => ((-1 : Int), t)
        | t => ((1 : Int), t)
      let epart := l5.takeWhile Char.isDigit
      let l6 := l5.dropWhile Char.isDigit
      if hasExp ∧ epart = [] then .error ()
      else
        let fval : Nat := fpart.foldl (fun a c => a * 10 + (c.toNat - 48)) 0
        let eval : Nat := epart.foldl (fun a c => a * 10 + (c.toNat - 48)) 0
        if fpart = [] ∧ ¬hasExp then
          .ok (.int (sign * ival), l2)
        else
          let base : Rat := (sign * (ival * 10 ^ fpart.length + fval) : Int) /
            ((10 : Rat) ^ fpart.length)
          let scaled : Rat :=
            if esign = 1 then base * (10 : Rat) ^ eval else base / ((10 : Rat) ^ eval)
          .ok (.float scaled, l6)

/-- Insert into a modelled dict: an existing string key is overwritten in
place, a new key is appended (Python dict semantics for duplicate keys in a
parsed object). -/
def dictInsert (d : List (PyVal × PyVal)) (k : String) (v : PyVal) : List (PyVal × PyVal) :=
  match d with
  | [] => [(.str k, v)]
  | (kk, vv) :: t =>
    match kk with
    | .str s => if s = k then (.str s, v) :: t else (.str s, vv) :: dictInsert t k v
    | other => (other, vv) :: dictInsert t k v

mutual

/-- Parse one JSON value (fuel-bounded recursive descent). -/
def parseJValue : Nat → List Char → Except Unit (PyVal × List Char)
  | 0, _ => .error ()
  | fuel + 1, l =>
    match l.dropWhile isJsonWs with
    | [] => .error ()
    | c :: rest =>
      if c = '"' then do
        let (cs, rem) ← parseJString (rest.length + 1) rest
        .ok (.str cs.asString, rem)
      else if c = '[' then
        match (rest.dropWhile isJsonWs) with
        | ']' :: rem => .ok (.list [], rem)
        | _ => do
          let (xs, rem) ← parseJArrayItems fuel rest
          .ok (.list xs, rem)
      else if c = lbrace then
        match (rest.dropWhile isJsonWs) with
        | c2 :: rem =>
          if c2 = rbrace then .ok (.dict [], rem)
          else do
            let (d, rem2) ← parseJObjItems fuel [] rest
            .ok (.dict d, rem2)
        | [] => .error ()
      else if c = 't' then
        match rest with
        | 'r' :: 'u' :: 'e' :: rem => .ok (.bool true, rem)
        | _ => .error ()
      else if c = 'f' then
        match rest with
        | 'a' :: 'l' :: 's' :: 'e' :: rem => .ok (.bool false, rem)
        | _ => .error ()
      else if c = 'n' then
        match rest with
        | 'u' :: 'l' :: 'l' :: rem => .ok (.none, rem)
        | _ => .error ()
      else if c = '-' ∨ c.isDigit then parseJNumber (c :: rest)
      else .error ()

/-- Parse the items of a JSON array after the opening bracket (at least one
item present). -/
def parseJArrayItems : Nat → List Char → Except Unit (List PyVal × List Char)
  | 0, _ => .error ()
  | fuel + 1, l => do
    let (v, rem) ← parseJValue fuel l
    match rem.dropWhile isJsonWs with
    | ',' :: rem2 => do
      let (vs, rem3) ← parseJArrayItems fuel rem2
      .ok (v :: vs, rem3)
    | ']' :: rem2 => .ok ([v], rem2)
    | _ => .error ()

/-- Parse the members of a JSON object after the opening brace (at least one
member present); duplicate keys overwrite in place. -/
def parseJObjItems : Nat → List (PyVal × PyVal) → List Char → Except Unit (List (PyVal × PyVal) × List Char)
  | 0, _, _ => .error ()
  | fuel + 1, acc, l =>
    match l.dropWhile isJsonWs with
    | '"' :: rest => do
      let (kcs, rem) ← parseJString (rest.length + 1) rest
      match rem.dropWhile isJsonWs with
      | ':' :: rem2 => do
        let (v, rem3) ← parseJValue fuel rem2
        let acc2 := dictInsert acc kcs.asString v
        match rem3.dropWhile isJsonWs with
        | ',' :: rem4 => parseJObjItems fuel acc2 rem4
        | c :: rem4 =>
          if c = rbrace then .ok (acc2, rem4) else .error ()
        | [] => .error ()
      | _ => .error ()
    | _ => .error ()

end

/-- `json.loads` on a string: parse one value and require only whitespace
after it.  (The non-finite literals `NaN`/`Infinity`/`-Infinity`, which
Python accepts by default, have no exact-rational value and are parse errors
in this model.) -/
def jsonLoads (s : String) : Except Unit PyVal := do
  let (v, rem) ← parseJValue (s.length + 1) s.toList
  if rem.dropWhile isJsonWs = [] then .ok v else .error ()

/-! ## Python `str()` / `repr()` and `json.dumps` -/

/-- Decimal text of an integer (Python `str(int)`). -/
def intText (n : Int) : String := toString n

/-- Text of a float value.  (Python `repr(float)` formatting of the binary
double is approximated by exact-rational text; no claim evaluates it.) -/
def floatText (q : Rat) : String :=
  if q.den = 1 then toString q.num ++ ".0" else toString q.num ++ "/" ++ toString q.den

/-- Comma-space join used by Python container `repr`. -/
def joinWith (sep : String) : List String → String
  | [] => ""
  | [s] => s
  | s :: t => s ++ sep ++ joinWith sep t

mutual

/-- Python `str(v)` (for containers this is `repr`; `repr` of a string is
approximated without escaping, which no claim evaluates). -/
def pyStr : PyVal → String
  | .none => "None"
  | .bool b => if b then "True" else "False"
  | .int n => intText n
  | .float q => floatText q
  | .str s => s
  | .list xs => "[" ++ joinWith ", " (pyReprList xs) ++ "]"
  | .dict d => String.mk [lbrace] ++ joinWith ", " (pyReprEntries d) ++ String.mk [rbrace]
  | .obj rep => rep

def pyReprList : List PyVal → List String
  | [] => []
  | x :: t =>
    (match x with
     | .str s => "'" ++ s ++ "'"
     | v => pyStr v) :: pyReprList t

def pyReprEntries : List (PyVal × PyVal) → List String
  | [] => []
  | (k, v) :: t =>
    ((match k with
      | .str s => "'" ++ s ++ "'"
      | kv => pyStr kv) ++ ": " ++
     (match v with
      | .str s => "'" ++ s ++ "'"
      | vv => pyStr vv)) :: pyReprEntries t

end

/-- Python `repr(v)`: strings quoted, other values as `pyStr`. -/
def pyRepr : PyVal → String
  | .str s => "'" ++ s ++ "'"
  | v => pyStr v

/-- JSON string-literal escaping with `ensure_ascii=False`: quote,
backslash and control characters are escaped, everything else is kept. -/
def jsonEscapeChar (c : Char) : List Char :=
  if c = '"' then ['\\', '"']
  else if c = '\\' then ['\\', '\\']
  else if c = '\n' then ['\\', 'n'] else if c = '\t' then ['\\', 't']
  else if c = '\r' then ['\\', 'r'] else if c.toNat = 8 then ['\\', 'b']
  else if c.toNat = 12 then ['\\', 'f']
  else if c.toNat < 32 then
    ['\\', 'u', '0', '0',
     (if c.toNat / 16 < 10 then Char.ofNat (48 + c.toNat / 16) else Char.ofNat (87 + c.toNat / 16)),
     (if c.toNat % 16 < 10 then Char.ofNat (48 + c.toNat % 16) else Char.ofNat (87 + c.toNat % 16))]
  else [c]

/-- A JSON string literal for `s`. -/
def jsonQuote (s : String) : String :=
  "\"" ++ (s.toList.flatMap jsonEscapeChar).asString ++ "\""

/-- `json.dumps` of a dict key: strings directly, scalar non-strings are
coerced to their text, container keys are a `TypeError`. -/
def jsonDumpKey : PyVal → Except PyErr String
  | .str s => .ok (jsonQuote s)
  | .int n => .ok (jsonQuote (intText n))
  | .bool b => .ok (jsonQuote (if b then "true" else "false"))
  | .none => .ok (jsonQuote "null")
  | .float q => .ok (jsonQuote (floatText q))
  | _ => .error .typeError

mutual

/-- `json.dumps(v, separators=(",", ":"), ensure_ascii=False)`: compact
serialization; an `obj` value raises `TypeError`. -/
def jsonDumps : PyVal → Except PyErr String
  | .none => .ok "null"
  | .bool b => .ok (if b then "true" else "false")
  | .int n => .ok (intText n)
  | .float q => .ok (floatText q)
  | .str s => .ok (jsonQuote s)
  | .list xs => do
    let parts ← jsonDumpsSeq xs
    .ok ("[" ++ joinWith "," parts ++ "]")
  | .dict d => do
    let parts ← jsonDumpsEntries d
    .ok (String.mk [lbrace] ++ joinWith "," parts ++ String.mk [rbrace])
  | .obj _ => .error .typeError

def jsonDumpsSeq : List PyVal → Except PyErr (List String)
  | [] => .ok []
  | x :: t => do
    let s ← jsonDumps x
    let r ← jsonDumpsSeq t
    .ok (s :: r)

def jsonDumpsEntries : List (PyVal × PyVal) → Except PyErr (List String)
  | [] => .ok []
  | (k, v) :: t => do
    let ks ← jsonDumpKey k
    let vs ← jsonDumps v
    let r ← jsonDumpsEntries t
    .ok ((ks ++ ":" ++ vs) :: r)

end

/-! ## `_coerce_genres_from_payload`
(src/station_info_page.py lines 243-278 and src/main_window.py lines
492-544; the two revisions differ only in the bare-string label chain) -/

/-- One `{id, label}` entry appended by the coercion loop (`label` stays a
`PyVal` because a truthy non-string record label is stored unchanged). -/
structure GenreEntry where
  id : String
  label : PyVal

/-- Python `a or b` for an optional string `a` (where `None` and `""` are
falsy) against a string fallback. -/
def orTruthyStr (a : Option String) (b : String) : String :=
  match a with
  | some s => if s = "" then b else s
  | none => b

/-- Label fallback chain of the bare-string branch in main_window.py:
`default_id_to_label.get(gid) or self.id_to_label.get(gid) or
self._humanize_slug(gid)`. -/
def labelChainKnown (known : List (String × String)) (gid : String) : String :=
  orTruthyStr (strLookup defaultIdToLabel gid)
    (orTruthyStr (strLookup known gid) (humanizeSlug gid))

/-- Label fallback chain without the known mapping:
`default_id_to_label.get(gid) or self._humanize_slug(gid)` (bare-string
branch of station_info_page.py and the record branch of both files). -/
def labelChainDefault (gid : String) : String :=
  orTruthyStr (strLookup defaultIdToLabel gid) (humanizeSlug gid)

/-- Record-element handling shared by both revisions:
`gid = (item.get("id") or slugify(item.get("label", ""))).strip()`, skip on
empty, then `label = item.get("label") or default_id_to_label.get(gid) or
self._humanize_slug(gid)`.  A truthy non-string id raises `AttributeError`
(`.strip()` on a non-str); a non-string label fed to `slugify` raises
`TypeError` (inside `unicodedata.normalize`). -/
def coerceDictElem (d : List (PyVal × PyVal)) : Except PyErr (Option GenreEntry) :=
  let idv := (dictGet d "id").getD .none
  let baseE : Except PyErr PyVal :=
    if pyTruthy idv then .ok idv
    else
      match (dictGet d "label").getD (.str "") with
      | .str ls => .ok (.str (slugify ls))
      | _ => .error .typeError
  match baseE with
  | .error e => .error e
  | .ok (.str s) =>
    let gid := pyStripStr s
    if gid = "" then .ok Option.none
    else
      let lv := (dictGet d "label").getD .none
      let lbl := if pyTruthy lv then lv else PyVal.str (labelChainDefault gid)
      .ok (some ⟨gid, lbl⟩)
  | .ok _ => .error .attributeError

/-- One loop iteration of station_info_page's coercion: strings are ids
(labels via catalog-then-humanize), dicts are records, anything else is
skipped. -/
def stationElem : PyVal → Except PyErr (Option GenreEntry)
  | .str s =>
    let gid := pyStripStr s
    if gid = "" then .ok Option.none
    else .ok (some ⟨gid, .str (labelChainDefault gid)⟩)
  | .dict d => coerceDictElem d
  | _ => .ok Option.none

/-- One loop iteration of main_window's coercion: identical except that the
bare-string label chain also consults `self.id_to_label`. -/
def mainElem (known : List (String × String)) : PyVal → Except PyErr (Option GenreEntry)
  | .str s =>
    let gid := pyStripStr s
    if gid = "" then .ok Option.none
    else .ok (some ⟨gid, .str (labelChainKnown known gid)⟩)
  | .dict d => coerceDictElem d
  | _ => .ok Option.none

/-- The `for item in genres_payload` loop, accumulating kept entries in
order; a raised exception aborts the whole call. -/
def coerceLoop (elem : PyVal → Except PyErr (Option GenreEntry)) :
    List PyVal → Except PyErr (List GenreEntry)
  | [] => .ok []
  | x :: t =>
    match elem x with
    | .error e => .error e
    | .ok g =>
      match coerceLoop elem t with
      | .error e => .error e
      | .ok gs =>
        match g with
        | some e => .ok (e :: gs)
        | none => .ok gs

/-- Stable insertion into an int-keyed list (ascending; the inserted element
precedes equal keys already in the list, which an `insSorted`-on-sorted-tail
sort needs for Python `sorted`'s stability). -/
def insSorted (x : Int × PyVal) : List (Int × PyVal) → List (Int × PyVal)
  | [] => [x]
  | y :: t => if x.1 ≤ y.1 then x :: y :: t else y :: insSorted x t

def sortByIntKey : List (Int × PyVal) → List (Int × PyVal)
  | [] => []
  | x :: t => insSorted x (sortByIntKey t)

/-- Evaluate `int(key)` on every dict item in order, as Python `sorted`
evaluates its key function (the first failure raises). -/
def mapIntKeys : List (PyVal × PyVal) → Except PyErr (List (Int × PyVal))
  | [] => .ok []
  | kv :: t =>
    match pyInt kv.1 with
    | .error e => .error e
    | .ok n =>
      match mapIntKeys t with
      | .error e => .error e
      | .ok r => .ok ((n, kv.2) :: r)

/-- Fuel-bounded worker for `splitPyTokens`; the fuel bounds the list
length, so the zero-fuel branch is never reached from the wrapper. -/
def splitPyTokensAux : Nat → List Char → List (List Char)
  | _, [] => []
  | 0, _ => []
  | fuel + 1, c :: t =>
    if isPySpace c || c = ',' then splitPyTokensAux fuel t
    else
      (c :: t.takeWhile (fun d => !(isPySpace d || d = ','))) ::
        splitPyTokensAux fuel (t.dropWhile (fun d => !(isPySpace d || d = ',')))

/-- `re.split(r"[\s,]+", s)` (without the empty boundary pieces, which the
comprehension filters out anyway): maximal runs of non-separator characters. -/
def splitPyTokens (l : List Char) : List (List Char) :=
  splitPyTokensAux l.length l

/-- The text stage: strip, attempt `json.loads` when the stripped text
starts with a bracket or brace, otherwise (or on parse failure) split on
runs of whitespace/commas into bare tokens. -/
def coerceTextStage (s0 : String) : PyVal :=
  let s := pyStripStr s0
  let afterJson : PyVal :=
    match s.toList with
    | c :: _ =>
      if c = '[' ∨ c = lbrace then
        match jsonLoads s with
        | .ok v => v
        | .error _ => .str s0
      else .str s0
    | [] => .str s0
  match afterJson with
  | .str _ =>
    .list ((splitPyTokens s.toList).filterMap (fun p =>
      let q := pyStripChars p
      if q = [] then Option.none else some (PyVal.str q.asString)))
  | v => v

/-- The mapping stage: a dict with all-int-parsable keys is read in key
order, any failure falls back to the dict's values in insertion order. -/
def coerceDictStage : PyVal → PyVal
  | .dict entries =>
    .list (match mapIntKeys entries with
           | .ok keyed => (sortByIntKey keyed).map (·.2)
           | .error _ => entries.map (·.2))
  | v => v

/-- Everything after the text stage: mapping stage, then the element loop on
a list (a non-list residue leaves the initial empty result). -/
def coercePostText (elem : PyVal → Except PyErr (Option GenreEntry)) (v : PyVal) :
    Except PyErr (List GenreEntry) :=
  match coerceDictStage v with
  | .list xs => coerceLoop elem xs
  | _ => .ok []

/-- `_coerce_genres_from_payload` of src/station_info_page.py. -/
def stationCoerce (payload : PyVal) : Except PyErr (List GenreEntry) :=
  match payload with
  | .none => .ok []
  | .str s0 => coercePostText stationElem (coerceTextStage s0)
  | v => coercePostText stationElem v

/-- `_coerce_genres_from_payload` of src/main_window.py, parameterized by
the window's `self.id_to_label` mapping. -/
def mainCoerce (known : List (String × String)) (payload : PyVal) :
    Except PyErr (List GenreEntry) :=
  match payload with
  | .none => .ok []
  | .str s0 => coercePostText (mainElem known) (coerceTextStage s0)
  | v => coercePostText (mainElem known) v

/-! ## UTF-8, SHA-512, HMAC, Base64 (models of the stdlib used by
`ApiClient._sign` and `MainWindow._generate_hmac_signature`) -/

/-- UTF-8 encoding of one character (scalar values only, as in Lean `Char`). -/
def utf8Char (c : Char) : List Nat :=
  let n := c.toNat
  if n < 128 then [n]
  else if n < 2048 then [192 + n / 64, 128 + n % 64]
  else if n < 65536 then [224 + n / 4096, 128 + (n / 64) % 64, 128 + n % 64]
  else [240 + n / 262144, 128 + (n / 4096) % 64, 128 + (n / 64) % 64, 128 + n % 64]

/-- `s.encode("utf-8")`. -/
def utf8Str (s : String) : List Nat :=
  s.toList.flatMap utf8Char

/-- 2 ^ 64, the word modulus of SHA-512. -/
def M64 : Nat := 18446744073709551616

/-- Right rotation of a 64-bit word. -/
def rotr64 (n x : Nat) : Nat :=
  ((x >>> n) ||| (x <<< (64 - n))) % M64

/-- Bitwise complement of a 64-bit word. -/
def not64 (x : Nat) : Nat := x ^^^ (M64 - 1)

def shaCh (e f g : Nat) : Nat := (e &&& f) ^^^ (not64 e &&& g)

def shaMaj (a b c : Nat) : Nat := (a &&& b) ^^^ (a &&& c) ^^^ (b &&& c)

def bSig0 (x : Nat) : Nat := rotr64 28 x ^^^ rotr64 34 x ^^^ rotr64 39 x

def bSig1 (x : Nat) : Nat := rotr64 14 x ^^^ rotr64 18 x ^^^ rotr64 41 x

def sSig0 (x : Nat) : Nat := rotr64 1 x ^^^ rotr64 8 x ^^^ (x >>> 7)

def sSig1 (x : Nat) : Nat := rotr64 19 x ^^^ rotr64 61 x ^^^ (x >>> 6)

/-- The eight initial SHA-512 hash words (FIPS 180-4). -/
def sha512H0 : List Nat :=
  [7640891576956012808, 13503953896175478587, 4354685564936845355,
   11912009170470909681, 5840696475078001361, 11170449401992604703,
   2270897969802886507, 6620516959819538809]

/-- The eighty SHA-512 round constants (FIPS 180-4). -/
def sha512K : List Nat :=
  [4794697086780616226, 8158064640168781261, 13096744586834688815, 16840607885511220156,
   4131703408338449720, 6480981068601479193, 10538285296894168987, 12329834152419229976,
   15566598209576043074, 1334009975649890238, 2608012711638119052, 6128411473006802146,
   8268148722764581231, 9286055187155687089, 11230858885718282805, 13951009754708518548,
   16472876342353939154, 17275323862435702243, 1135362057144423861, 2597628984639134821,
   3308224258029322869, 5365058923640841347, 6679025012923562964, 8573033837759648693,
   10970295158949994411, 12119686244451234320, 12683024718118986047, 13788192230050041572,
   14330467153632333762, 15395433587784984357, 489312712824947311, 1452737877330783856,
   2861767655752347644, 3322285676063803686, 5560940570517711597, 5996557281743188959,
   7280758554555802590, 8532644243296465576, 9350256976987008742, 10552545826968843579,
   11727347734174303076, 12113106623233404929, 14000437183269869457, 14369950271660146224,
   15101387698204529176, 15463397548674623760, 17586052441742319658, 1182934255886127544,
   1847814050463011016, 2177327727835720531, 2830643537854262169, 3796741975233480872,
   4115178125766777443, 5681478168544905931, 6601373596472566643, 7507060721942968483,
   8399075790359081724, 8693463985226723168, 9568029438360202098, 10144078919501101548,
   10430055236837252648, 11840083180663258601, 13761210420658862357, 14299343276471374635,
   14566680578165727644, 15097957966210449927, 16922976911328602910, 17689382322260857208,
   500013540394364858, 748580250866718886, 1242879168328830382, 1977374033974150939,
   2944078676154940804, 3659926193048069267, 4368137639120453308, 4836135668995329356,
   5532061633213252278, 6448918945643986474, 6902733635092675308, 7801388544844847127]

/-- Big-endian bytes of `x`, exactly `n` bytes. -/
def natToBytesBE : Nat → Nat → List Nat
  | 0, _ => []
  | n + 1, x => natToBytesBE n (x / 256) ++ [x % 256]

/-- Big-endian word from (at most eight) bytes. -/
def beWord (bytes : List Nat) : Nat :=
  bytes.foldl (fun acc b => acc * 256 + b) 0

/-- Split a byte list into 64-bit big-endian words (eight bytes each; a
ragged tail, which padded input never has, becomes one short word). -/
def wordsOfBytes : List Nat → List Nat
  | b0 :: b1 :: b2 :: b3 :: b4 :: b5 :: b6 :: b7 :: rest =>
    beWord [b0, b1, b2, b3, b4, b5, b6, b7] :: wordsOfBytes rest
  | [] => []
  | l => [beWord l]

/-- Fuel-bounded worker for `blocksOf`; the fuel bounds the list length. -/
def blocksOfAux : Nat → List Nat → List (List Nat)
  | _, [] => []
  | 0, _ => []
  | fuel + 1, b :: t => (b :: t.take 127) :: blocksOfAux fuel (t.drop 127)

/-- Split a byte list into 128-byte blocks. -/
def blocksOf (l : List Nat) : List (List Nat) :=
  blocksOfAux l.length l

/-- SHA-512 message padding: append `0x80`, zeros to 112 mod 128, then the
bit length as sixteen big-endian bytes. -/
def sha512Pad (msg : List Nat) : List Nat :=
  let L := msg.length
  let k := (239 - L % 128) % 128
  msg ++ [128] ++ List.replicate k 0 ++ natToBytesBE 16 (L * 8)

/-- One SHA-512 round. -/
def sha512Round (st : Nat × Nat × Nat × Nat × Nat × Nat × Nat × Nat)
    (kw : Nat × Nat) : Nat × Nat × Nat × Nat × Nat × Nat × Nat × Nat :=
  let (a, b, c, d, e, f, g, h) := st
  let t1 := (h + bSig1 e + shaCh e f g + kw.1 + kw.2) % M64
  let t2 := (bSig0 a + shaMaj a b c) % M64
  ((t1 + t2) % M64, a, b, c, (d + t1) % M64, e, f, g)

/-- Message-schedule extension: `steps` new words pushed onto the reversed
word list (newest first, so `w[t-2]` is at index 1 and `w[t-16]` at 15). -/
def schedExtend : Nat → List Nat → List Nat
  | 0, acc => acc
  | steps + 1, acc =>
    schedExtend steps
      (((sSig1 (acc.getD 1 0) + acc.getD 6 0 + sSig0 (acc.getD 14 0) + acc.getD 15 0) % M64) :: acc)

/-- Compress one 128-byte block into the running state. -/
def sha512Block (st : Nat × Nat × Nat × Nat × Nat × Nat × Nat × Nat)
    (block : List Nat) : Nat × Nat × Nat × Nat × Nat × Nat × Nat × Nat :=
  let ws := (schedExtend 64 (wordsOfBytes block).reverse).reverse
  let (a, b, c, d, e, f, g, h) := (sha512K.zip ws).foldl sha512Round st
  let (a0, b0, c0, d0, e0, f0, g0, h0) := st
  ((a0 + a) % M64, (b0 + b) % M64, (c0 + c) % M64, (d0 + d) % M64,
   (e0 + e) % M64, (f0 + f) % M64, (g0 + g) % M64, (h0 + h) % M64)

/-- The initial state as an 8-tuple. -/
def sha512Init : Nat × Nat × Nat × Nat × Nat × Nat × Nat × Nat :=
  (sha512H0.getD 0 0, sha512H0.getD 1 0, sha512H0.getD 2 0, sha512H0.getD 3 0,
   sha512H0.getD 4 0, sha512H0.getD 5 0, sha512H0.getD 6 0, sha512H0.getD 7 0)

/-- `hashlib.sha512(msg).digest()` as a 64-byte list. -/
def sha512 (msg : List Nat) : List Nat :=
  let (a, b, c, d, e, f, g, h) := (blocksOf (sha512Pad msg)).foldl sha512Block sha512Init
  natToBytesBE 8 a ++ natToBytesBE 8 b ++ natToBytesBE 8 c ++ natToBytesBE 8 d ++
  natToBytesBE 8 e ++ natToBytesBE 8 f ++ natToBytesBE 8 g ++ natToBytesBE 8 h

/-- `hmac.new(key, msg, hashlib.sha512).digest()` (RFC 2104 with a 128-byte
block size). -/
def hmacSha512 (key msg : List Nat) : List Nat :=
  let k0 := if 128 < key.length then sha512 key else key
  let kp := k0 ++ List.replicate (128 - k0.length) 0
  sha512 ((kp.map (fun b => b ^^^ 92)) ++ sha512 ((kp.map (fun b => b ^^^ 54)) ++ msg))

/-- The standard Base64 alphabet. -/
def b64alphabet : List Char :=
  "ABCDEFGHIJKLMNOPQRSTUVWXYZabcdefghijklmnopqrstuvwxyz0123456789+/".toList

/-- Character for a six-bit group. -/
def b64char (n : Nat) : Char := b64alphabet.getD n '='

/-- `base64.b64encode` over bytes, as characters. -/
def b64chars : List Nat → List Char
  | a :: b :: c :: rest =>
    b64char (a / 4) :: b64char ((a % 4) * 16 + b / 16) ::
    b64char ((b % 16) * 4 + c / 64) :: b64char (c % 64) :: b64chars rest
  | [a, b] =>
    [b64char (a / 4), b64char ((a % 4) * 16 + b / 16), b64char ((b % 16) * 4), '=']
  | [a] => [b64char (a / 4), b64char ((a % 4) * 16), '=', '=']
  | [] => []

/-- `base64.b64encode(bs).decode("ascii")`. -/
def b64encode (bs : List Nat) : String := (b64chars bs).asString

/-! ## The two signing routines and the HTTP client
(src/api_client.py and src/main_window.py) -/

/-- `ApiClient._sign(method, path, body, ts)`: HMAC-SHA512 of
`f"{ts}{method}{path}{body}"` keyed by `self.hmac_key`, Base64, `.strip()`.
There is no empty-key special case. -/
def apiClientSign (key method path body ts : String) : String :=
  pyStripStr (b64encode (hmacSha512 (utf8Str key) (utf8Str (ts ++ method ++ path ++ body))))

/-- `MainWindow._generate_hmac_signature(method, path, body, timestamp)`:
identical, except an empty (or absent) key short-circuits to `""`. -/
def generateHmacSignature (key method path body ts : String) : String :=
  if key = "" then ""
  else pyStripStr (b64encode (hmacSha512 (utf8Str key) (utf8Str (ts ++ method ++ path ++ body))))

/-- The signature as produced for a request by `ApiClient._headers`: the
method is uppercased before `_sign` builds the message. -/
def headerSign (key method path body ts : String) : String :=
  apiClientSign key (pyUpper method) path body ts

/-- Outcome of `urllib.request.urlopen` for one request: a 2xx response
(status and UTF-8-decoded body), an `HTTPError` carrying a status code and
body, or any other exception (transport failure, body-read or decode
failure) carrying its text. -/
inductive UrlOpenResult where
  | ok (status : Nat) (body : String)
  | httpError (code : Nat) (body : String)
  | exn (msg : String)

/-- `ApiClient.get_config_field(field)` as a function of the transport
outcome: 2xx decodes the JSON body (`{}` for an empty body, `None` when
decoding raises), 400 synthesizes `{"field": field, "value": ""}`, every
other error returns `None`. -/
def getConfigField (field : String) (r : UrlOpenResult) : Option PyVal :=
  match r with
  | .ok _ body =>
    if body = "" then some (.dict [])
    else
      match jsonLoads body with
      | .ok v => some v
      | .error _ => Option.none
  | .httpError code _ =>
    if code = 400 then some (.dict [(.str "field", .str field), (.str "value", .str "")])
    else Option.none
  | .exn _ => Option.none

/-- `"" if v is None else str(v)` — the bulk-patch serialization fallback. -/
def coerceValueText : PyVal → PyVal
  | .none => .str ""
  | v => .str (pyStr v)

/-- `[{"field": f, "value": v} for (f, v) in updates]`. -/
def patchPayload (updates : List (String × PyVal)) : PyVal :=
  .list (updates.map (fun u => .dict [(.str "field", .str u.1), (.str "value", u.2)]))

/-- Body construction of `patch_config_bulk`: serialize, and on failure
stringify every value and serialize again (the second attempt is outside
any handler, so its failure would propagate). -/
def patchBody (updates : List (String × PyVal)) : Except PyErr String :=
  match jsonDumps (patchPayload updates) with
  | .ok b => .ok b
  | .error _ =>
    jsonDumps (patchPayload (updates.map (fun u => (u.1, coerceValueText u.2))))

/-- `ApiClient.patch_config_bulk(updates)` as a function of the transport
outcome: `(True, status, text)` on success, `(False, code, text)` on
`HTTPError`, `(False, 0, str(ex))` on any other exception. -/
def patchConfigBulk (updates : List (String × PyVal)) (r : UrlOpenResult) :
    Except PyErr (Bool × Nat × String) :=
  match patchBody updates with
  | .error e => .error e
  | .ok _body =>
    match r with
    | .ok status text => .ok (true, status, text)
    | .httpError code text => .ok (false, code, text)
    | .exn msg => .ok (false, 0, msg)

/-! ## Well-shaped payloads (the no-raise domain of the coercion) -/

/-- One sequence element the coercion loop handles without raising: any
non-record value, or a record whose `id` field (when present and truthy) is
a string, and whose `label` field (consulted for the id only when `id` is
absent or falsy, defaulting to `""`) is then a string. -/
def wsElem : PyVal → Bool
  | .dict d =>
    (match (dictGet d "id").getD .none with
     | v =>
       if pyTruthy v then (match v with | .str _ => true | _ => false)
       else (match (dictGet d "label").getD (.str "") with | .str _ => true | _ => false))
  | _ => true

/-- Well-shapedness of the list the element loop finally runs over. -/
def wsParsed : PyVal → Bool
  | .list xs => xs.all wsElem
  | .dict d => (d.map (·.2)).all wsElem
  | _ => true

/-- Well-shaped payload: anything except a sequence/mapping (either direct
or decoded from text) containing a record with a truthy non-string `id`, or
with a falsy/absent `id` and a non-string `label`. -/
def wsPayload : PyVal → Bool
  | .list xs => xs.all wsElem
  | .dict d => (d.map (·.2)).all wsElem
  | .str s0 =>
    (match (pyStripStr s0).toList with
     | c :: _ =>
       if c = '[' ∨ c = lbrace then
         match jsonLoads (pyStripStr s0) with
         | .ok v => wsParsed v
         | .error _ => true
       else true
     | [] => true)
  | _ => true

/-! ## Canonical slug form (for the idempotence proof) -/

/-- A character a slug may contain: `[a-z0-9_]`. -/
def goodSlugChar (c : Char) : Bool := isLowerAlnum c || c = '_'

/-- No two adjacent underscores. -/
def noDoubleUnd : List Char → Bool
  | [] => true
  | [_] => true
  | a :: b :: t => !(a = '_' && b = '_') && noDoubleUnd (b :: t)

/-- Canonical slug character list: slug characters only, no adjacent,
leading or trailing underscores. -/
def canonicalSlug (l : List Char) : Bool :=
  l.all goodSlugChar && noDoubleUnd l &&
  (l.head? ≠ some '_' : Bool) && (l.getLast? ≠ some '_' : Bool)

/-! ## Generic list helper lemmas -/

theorem dropWhile_eq_self_of (p : Char → Bool) (l : List Char)
    (h : ∀ c ∈ l, p c = false) : l.dropWhile p = l := by
  cases l with
  | nil => rfl
  | cons c t => simp [List.dropWhile, h c (by simp)]

theorem dropEndWhile_eq_self_of (p : Char → Bool) (l : List Char)
    (h : ∀ c ∈ l, p c = false) : dropEndWhile p l = l := by
  induction l with
  | nil => rfl
  | cons c t ih =>
    have ht : dropEndWhile p t = t := ih (fun d hd => h d (by simp [hd]))
    simp only [dropEndWhile, ht]
    rcases t with _ | ⟨d, t'⟩
    · simp [h c (by simp)]
    · simp

theorem map_eq_self_of (f : Char → Char) (l : List Char)
    (h : ∀ c ∈ l, f c = c) : l.map f = l := by
  induction l with
  | nil => rfl
  | cons c t ih => simp [h c (by simp), ih (fun d hd => h d (by simp [hd]))]

theorem filter_eq_self_of (p : Char → Bool) (l : List Char)
    (h : ∀ c ∈ l, p c = true) : l.filter p = l := by
  induction l with
  | nil => rfl
  | cons c t ih => simp [List.filter, h c (by simp), ih (fun d hd => h d (by simp [hd]))]

theorem flatMap_singleton_of (f : Char → List Char) (l : List Char)
    (h : ∀ c ∈ l, f c = [c]) : l.flatMap f = l := by
  induction l with
  | nil => rfl
  | cons c t ih => simp [h c (by simp), ih (fun d hd => h d (by simp [hd]))]

/-! ## Character facts for canonical slugs -/

theorem goodSlugChar_cases {c : Char} (h : goodSlugChar c = true) :
    (97 ≤ c.toNat ∧ c.toNat ≤ 122) ∨ (48 ≤ c.toNat ∧ c.toNat ≤ 57) ∨ c = '_' := by
  simp [goodSlugChar, isLowerAlnum] at h
  rcases h with (h | h) | h
  · exact Or.inl h
  · exact Or.inr (Or.inl h)
  · exact Or.inr (Or.inr h)

theorem goodSlugChar_toNat {c : Char} (h : goodSlugChar c = true) :
    (97 ≤ c.toNat ∧ c.toNat ≤ 122) ∨ (48 ≤ c.toNat ∧ c.toNat ≤ 57) ∨ c.toNat = 95 := by
  rcases goodSlugChar_cases h with h | h | h
  · exact Or.inl h
  · exact Or.inr (Or.inl h)
  · subst h; exact Or.inr (Or.inr rfl)

theorem goodSlugChar_lower {c : Char} (h : goodSlugChar c = true) : pyLowerChar c = c := by
  have := goodSlugChar_toNat h
  unfold pyLowerChar
  rw [if_neg]
  omega

theorem goodSlugChar_not_space {c : Char} (h : goodSlugChar c = true) :
    isPySpace c = false := by
  have := goodSlugChar_toNat h
  simp [isPySpace]
  omega

theorem goodSlugChar_ascii {c : Char} (h : goodSlugChar c = true) :
    (c.toNat < 128) = true := by
  have := goodSlugChar_toNat h
  simp
  omega

theorem goodSlugChar_ne_amp {c : Char} (h : goodSlugChar c = true) : c ≠ '&' := by
  intro hc
  have := goodSlugChar_toNat h
  subst hc
  simp at this

theorem goodSlugChar_ne_plus {c : Char} (h : goodSlugChar c = true) : c ≠ '+' := by
  intro hc
  have := goodSlugChar_toNat h
  subst hc
  simp at this

theorem goodSlugChar_alnum {c : Char} (h : goodSlugChar c = true) (hu : c ≠ '_') :
    isLowerAlnum c = true := by
  simp [goodSlugChar] at h
  rcases h with h | h
  · exact h
  · exact absurd h hu

/-! ## noDoubleUnd and stage-output structure -/

theorem noDoubleUnd_tail {a : Char} {t : List Char} (h : noDoubleUnd (a :: t) = true) :
    noDoubleUnd t = true := by
  rcases t with _ | ⟨b, t'⟩
  · rfl
  · simp [noDoubleUnd] at h
    exact h.2

theorem noDoubleUnd_cons {a : Char} {t : List Char}
    (h1 : ∀ d, t.head? = some d → ¬(a = '_' ∧ d = '_'))
    (h2 : noDoubleUnd t = true) : noDoubleUnd (a :: t) = true := by
  rcases t with _ | ⟨b, t'⟩
  · rfl
  · simp only [noDoubleUnd, Bool.and_eq_true, h2, and_true]
    have := h1 b rfl
    simp only [Bool.not_eq_true']
    by_cases ha : a = '_'
    · by_cases hb : b = '_'
      · exact absurd ⟨ha, hb⟩ this
      · simp [ha, hb]
    · simp [ha]

theorem collapseNonAlnum_all_good (b : Bool) (l : List Char) :
    (collapseNonAlnum b l).all goodSlugChar = true := by
  induction l generalizing b with
  | nil => rfl
  | cons c t ih =>
    by_cases hc : isLowerAlnum c = true
    · simp [collapseNonAlnum, hc, List.all_cons, ih false, goodSlugChar]
    · rcases b with _ | _
      · simp [collapseNonAlnum, hc, List.all_cons, ih true, goodSlugChar]
      · simp [collapseNonAlnum, hc, ih true]

theorem collapseNonAlnum_shape (l : List Char) :
    ∀ b, noDoubleUnd (collapseNonAlnum b l) = true ∧
      (b = true → (collapseNonAlnum b l).head? ≠ some '_') := by
  induction l with
  | nil => intro b; exact ⟨rfl, by intro _; simp [collapseNonAlnum]⟩
  | cons c t ih =>
    intro b
    by_cases hc : isLowerAlnum c = true
    · have hcne : c ≠ '_' := by
        intro hcu
        subst hcu
        simp [isLowerAlnum] at hc
      constructor
      · simp only [collapseNonAlnum, hc, if_pos]
        exact noDoubleUnd_cons
          (fun d _ hd => hcne hd.1) (ih false).1
      · intro _
        simp only [collapseNonAlnum, hc, if_pos, List.head?_cons]
        intro hcon
        exact hcne (by injection hcon)
    · rcases b with _ | _
      · constructor
        · simp only [collapseNonAlnum, hc]
          simp only [Bool.false_eq_true, if_neg, if_false]
          exact noDoubleUnd_cons
            (fun d hd hcon => (ih true).2 rfl (hd ▸ congrArg some (hcon.2 ▸ rfl)))
            (ih true).1
        · intro hfalse
          cases hfalse
      · constructor
        · simp only [collapseNonAlnum, hc, if_neg, if_true]
          exact (ih true).1
        · intro _
          simp only [collapseNonAlnum, hc, if_neg, if_true]
          exact (ih true).2 rfl

theorem collapseNonAlnum_skip {c : Char} {t : List Char} (h : isLowerAlnum c = true) :
    ∀ b, collapseNonAlnum b (c :: t) = c :: collapseNonAlnum false t := by
  intro b
  simp [collapseNonAlnum, h]

theorem collapseNonAlnum_id (l : List Char)
    (hg : l.all goodSlugChar = true) (hd : noDoubleUnd l = true) :
    collapseNonAlnum false l = l := by
  induction l with
  | nil => rfl
  | cons c t ih =>
    rw [List.all_cons, Bool.and_eq_true] at hg
    have hgc : goodSlugChar c = true := hg.1
    have hgt : t.all goodSlugChar = true := hg.2
    by_cases hc : c = '_'
    · subst hc
      have hna : isLowerAlnum '_' = false := by decide
      simp only [collapseNonAlnum, hna, Bool.false_eq_true, if_neg, if_false]
      rcases t with _ | ⟨d, t'⟩
      · rfl
      · have hdne : d ≠ '_' := by
          intro hdu
          subst hdu
          simp [noDoubleUnd] at hd
        have hda : isLowerAlnum d = true := by
          rw [List.all_cons, Bool.and_eq_true] at hgt
          exact goodSlugChar_alnum hgt.1 hdne
        rw [collapseNonAlnum_skip hda true]
        rw [← collapseNonAlnum_skip hda false]
        rw [ih hgt (noDoubleUnd_tail hd)]
    · have hca : isLowerAlnum c = true := goodSlugChar_alnum hgc hc
      rw [collapseNonAlnum_skip hca false, ih hgt (noDoubleUnd_tail hd)]

theorem collapseUnderscore_id (l : List Char) (hd : noDoubleUnd l = true) :
    collapseUnderscore false l = l := by
  induction l with
  | nil => rfl
  | cons c t ih =>
    by_cases hc : c = '_'
    · subst hc
      simp only [collapseUnderscore, if_pos rfl, Bool.false_eq_true, if_false]
      rcases t with _ | ⟨d, t'⟩
      · rfl
      · have hdne : d ≠ '_' := by
          intro hdu
          subst hdu
          simp [noDoubleUnd] at hd
        have := ih (noDoubleUnd_tail hd)
        simp only [collapseUnderscore, if_neg hdne] at this ⊢
        simp [this]
    · simp only [collapseUnderscore, if_neg hc]
      rw [ih (noDoubleUnd_tail hd)]

/-! ## dropWhile / dropEndWhile structure -/

theorem all_dropWhile (p q : Char → Bool) (l : List Char) (h : l.all q = true) :
    (l.dropWhile p).all q = true := by
  induction l with
  | nil => rfl
  | cons c t ih =>
    rw [List.all_cons, Bool.and_eq_true] at h
    by_cases hc : p c = true
    · rw [List.dropWhile_cons_of_pos hc]
      exact ih h.2
    · rw [List.dropWhile_cons_of_neg (by simpa using hc)]
      rw [List.all_cons, Bool.and_eq_true]
      exact ⟨h.1, h.2⟩

theorem noDoubleUnd_dropWhile (p : Char → Bool) (l : List Char)
    (h : noDoubleUnd l = true) : noDoubleUnd (l.dropWhile p) = true := by
  induction l with
  | nil => rfl
  | cons c t ih =>
    by_cases hc : p c = true
    · simp [List.dropWhile, hc]
      exact ih (noDoubleUnd_tail h)
    · simpa [List.dropWhile, hc] using h

theorem head?_dropWhile (p : Char → Bool) (l : List Char) {c : Char}
    (h : (l.dropWhile p).head? = some c) : p c = false := by
  induction l with
  | nil => simp [List.dropWhile] at h
  | cons a t ih =>
    by_cases ha : p a = true
    · simp [List.dropWhile, ha] at h
      exact ih h
    · simp [List.dropWhile, ha] at h
      subst h
      simp [ha]

theorem dropEndWhile_head? (p : Char → Bool) (l : List Char) :
    dropEndWhile p l = [] ∨ (dropEndWhile p l).head? = l.head? := by
  rcases l with _ | ⟨c, t⟩
  · exact Or.inl rfl
  · simp only [dropEndWhile]
    by_cases hc : dropEndWhile p t = [] ∧ p c = true
    · rw [if_pos hc]
      exact Or.inl rfl
    · rw [if_neg hc]
      exact Or.inr rfl

theorem all_dropEndWhile (p q : Char → Bool) (l : List Char) (h : l.all q = true) :
    (dropEndWhile p l).all q = true := by
  induction l with
  | nil => rfl
  | cons c t ih =>
    rw [List.all_cons, Bool.and_eq_true] at h
    simp only [dropEndWhile]
    by_cases hc : dropEndWhile p t = [] ∧ p c = true
    · rw [if_pos hc]; rfl
    · rw [if_neg hc]
      rw [List.all_cons, Bool.and_eq_true]
      exact ⟨h.1, ih h.2⟩

theorem noDoubleUnd_dropEndWhile (p : Char → Bool) (l : List Char)
    (h : noDoubleUnd l = true) : noDoubleUnd (dropEndWhile p l) = true := by
  induction l with
  | nil => rfl
  | cons c t ih =>
    simp only [dropEndWhile]
    by_cases hc : dropEndWhile p t = [] ∧ p c = true
    · rw [if_pos hc]; rfl
    · rw [if_neg hc]
      refine noDoubleUnd_cons (fun d hd hcon => ?_) (ih (noDoubleUnd_tail h))
      rcases dropEndWhile_head? p t with he | he
      · rw [he] at hd
        simp at hd
      · rw [he] at hd
        rcases t with _ | ⟨b, t'⟩
        · simp at hd
        · simp at hd
          rw [hcon.1, hd] at h
          rw [hcon.2] at h
          simp [noDoubleUnd] at h

theorem getLast?_dropEndWhile (p : Char → Bool) (l : List Char) :
    ∀ c, (dropEndWhile p l).getLast? = some c → p c = false := by
  induction l with
  | nil => intro c h; simp [dropEndWhile] at h
  | cons a t ih =>
    intro c h
    simp only [dropEndWhile] at h
    by_cases hc : dropEndWhile p t = [] ∧ p a = true
    · rw [if_pos hc] at h
      simp at h
    · rw [if_neg hc] at h
      rcases he : dropEndWhile p t with _ | ⟨d, t'⟩
      · rw [he] at h
        simp at h
        subst h
        rcases Decidable.em (p a = true) with hp | hp
        · exact absurd ⟨he, hp⟩ hc
        · simpa using hp
      · rw [he] at h
        rw [List.getLast?_cons_cons] at h
        rw [← he] at h
        exact ih c h

theorem dropWhile_eq_self_of_head (p : Char → Bool) (l : List Char)
    (h : ∀ c, l.head? = some c → p c = false) : l.dropWhile p = l := by
  cases l with
  | nil => rfl
  | cons c t => rw [List.dropWhile_cons_of_neg (by simp [h c rfl])]

theorem dropEndWhile_eq_self_of_last (p : Char → Bool) (l : List Char)
    (h : ∀ c, l.getLast? = some c → p c = false) : dropEndWhile p l = l := by
  induction l with
  | nil => rfl
  | cons a t ih =>
    rcases t with _ | ⟨b, t'⟩
    · have : p a = false := h a rfl
      simp [dropEndWhile, this]
    · have ht : dropEndWhile p (b :: t') = b :: t' :=
        ih (fun c hc => h c (by rw [List.getLast?_cons_cons]; exact hc))
      have hstep : dropEndWhile p (a :: b :: t') =
          if dropEndWhile p (b :: t') = [] ∧ p a = true then []
          else a :: dropEndWhile p (b :: t') := rfl
      rw [hstep, ht]
      simp

theorem slugChars_canonical (l : List Char) : canonicalSlug (slugChars l) = true := by
  unfold slugChars
  set s4 := replaceCharWith '+' andRep
    (replaceCharWith '&' andRep
      (pyStripChars ((asciiIgnore l).map pyLowerChar))) with hs4
  have h5g : (collapseNonAlnum false s4).all goodSlugChar = true :=
    collapseNonAlnum_all_good false s4
  have h5d : noDoubleUnd (collapseNonAlnum false s4) = true :=
    (collapseNonAlnum_shape s4 false).1
  set s5 := collapseNonAlnum false s4 with hs5
  rw [collapseUnderscore_id s5 h5d]
  unfold stripUnderscore
  set s6 := s5.dropWhile (fun c => c = '_') with hs6
  have h6g : s6.all goodSlugChar = true := all_dropWhile _ _ _ h5g
  have h6d : noDoubleUnd s6 = true := noDoubleUnd_dropWhile _ _ h5d
  set s7 := dropEndWhile (fun c => c = '_') s6 with hs7
  have h7g : s7.all goodSlugChar = true := all_dropEndWhile _ _ _ h6g
  have h7d : noDoubleUnd s7 = true := noDoubleUnd_dropEndWhile _ _ h6d
  have h7h : (s7.head? ≠ some '_' : Bool) = true := by
    rcases dropEndWhile_head? (fun c => c = '_') s6 with he | he
    · rw [hs7, he]
      simp
    · simp only [decide_eq_true_eq]
      intro hcon
      rw [hs7, he] at hcon
      have := head?_dropWhile (fun c => c = '_') s5 hcon
      simp at this
  have h7l : (s7.getLast? ≠ some '_' : Bool) = true := by
    simp only [decide_eq_true_eq]
    intro hcon
    have := getLast?_dropEndWhile (fun c => c = '_') s6 '_' hcon
    simp at this
  unfold canonicalSlug
  rw [h7g, h7d, h7h, h7l]
  rfl

theorem canonicalSlug_parts {l : List Char} (h : canonicalSlug l = true) :
    l.all goodSlugChar = true ∧ noDoubleUnd l = true ∧
    (∀ c, l.head? = some c → c ≠ '_') ∧ (∀ c, l.getLast? = some c → c ≠ '_') := by
  unfold canonicalSlug at h
  simp only [Bool.and_eq_true, decide_eq_true_eq] at h
  refine ⟨h.1.1.1, h.1.1.2, ?_, ?_⟩
  · intro c hc hcu
    exact h.1.2 (by rw [hc, hcu])
  · intro c hc hcu
    exact h.2 (by rw [hc, hcu])

theorem slugChars_id (w : List Char) (hc : canonicalSlug w = true) : slugChars w = w := by
  obtain ⟨hg, hd, hh, hl⟩ := canonicalSlug_parts hc
  have hg' : ∀ c ∈ w, goodSlugChar c = true := List.all_eq_true.mp hg
  have e1 : asciiIgnore w = w := by
    unfold asciiIgnore
    exact filter_eq_self_of _ _ (fun c hcm => by simpa using goodSlugChar_ascii (hg' c hcm))
  have e2 : w.map pyLowerChar = w :=
    map_eq_self_of _ _ (fun c hcm => goodSlugChar_lower (hg' c hcm))
  have e3 : pyStripChars w = w := by
    unfold pyStripChars
    rw [dropWhile_eq_self_of _ _ (fun c hcm => goodSlugChar_not_space (hg' c hcm))]
    exact dropEndWhile_eq_self_of_last _ _
      (fun c hcm => goodSlugChar_not_space (hg' c (by
        obtain ⟨hne, heq⟩ := List.mem_getLast?_eq_getLast (by rw [hcm]; rfl)
        exact heq ▸ List.getLast_mem hne)))
  have e4 : replaceCharWith '&' andRep w = w := by
    unfold replaceCharWith
    exact flatMap_singleton_of _ _ (fun c hcm => by
      simp [if_neg (goodSlugChar_ne_amp (hg' c hcm))])
  have e5 : replaceCharWith '+' andRep w = w := by
    unfold replaceCharWith
    exact flatMap_singleton_of _ _ (fun c hcm => by
      simp [if_neg (goodSlugChar_ne_plus (hg' c hcm))])
  have e8 : stripUnderscore w = w := by
    unfold stripUnderscore
    rw [dropWhile_eq_self_of_head _ _ (fun c hcm => by simp [hh c hcm])]
    exact dropEndWhile_eq_self_of_last _ _ (fun c hcm => by simp [hl c hcm])
  unfold slugChars
  rw [e1, e2, e3, e4, e5, collapseNonAlnum_id w hg hd, collapseUnderscore_id w hd, e8]

theorem slugFixup_of_ne (s : String) (h1 : s ≠ "r_b") (h2 : s ≠ "r_and_b") :
    slugFixup s = s := by
  unfold slugFixup
  rw [if_neg h1, if_neg h2]

theorem slugify_canonical (s : String) :
    canonicalSlug (slugify s).toList = true ∧
    slugify s ≠ "r_b" ∧ slugify s ≠ "r_and_b" := by
  unfold slugify
  set u := (slugChars s.toList).asString with hu
  have hcu : canonicalSlug u.toList = true := by
    rw [hu, List.toList_asString]
    exact slugChars_canonical s.toList
  by_cases h1 : u = "r_b"
  · rw [h1]
    refine ⟨by decide, by decide, by decide⟩
  · by_cases h2 : u = "r_and_b"
    · rw [h2]
      refine ⟨by decide, by decide, by decide⟩
    · rw [slugFixup_of_ne u h1 h2]
      exact ⟨hcu, h1, h2⟩

theorem slugify_fixed (s : String) (hc : canonicalSlug s.toList = true)
    (h1 : s ≠ "r_b") (h2 : s ≠ "r_and_b") : slugify s = s := by
  unfold slugify
  rw [slugChars_id s.toList hc, String.asString_toList]
  exact slugFixup_of_ne s h1 h2

/-- C7: `slugify` is idempotent on its own output: for every string `s`,
`slugify (slugify s) = slugify s`. -/
theorem slugify_idempotent (s : String) : slugify (slugify s) = slugify s := by
  obtain ⟨hc, h1, h2⟩ := slugify_canonical s
  exact slugify_fixed (slugify s) hc h1 h2

/-! ## Coercion loop structure -/

theorem bindE_ok {α β : Type} (a : α) (f : α → Except PyErr β) :
    (Except.ok a : Except PyErr α) >>= f = f a := rfl

theorem bindE_error {α β : Type} (e : PyErr) (f : α → Except PyErr β) :
    (Except.error e : Except PyErr α) >>= f = Except.error e := rfl

theorem coerceLoop_append (elem : PyVal → Except PyErr (Option GenreEntry))
    (xs ys : List PyVal) :
    coerceLoop elem (xs ++ ys) =
      match coerceLoop elem xs, coerceLoop elem ys with
      | .ok a, .ok b => .ok (a ++ b)
      | .error e, _ => .error e
      | .ok _, .error e => .error e := by
  induction xs with
  | nil =>
    simp only [List.nil_append, coerceLoop]
    rcases coerceLoop elem ys with e | b <;> rfl
  | cons x t ih =>
    rw [show (x :: t) ++ ys = x :: (t ++ ys) from rfl]
    simp only [coerceLoop]
    rcases hx : elem x with e | g
    · rfl
    · rw [ih]
      rcases coerceLoop elem t with e | a
      · rfl
      · rcases coerceLoop elem ys with e | b
        · rcases g with _ | e <;> rfl
        · rcases g with _ | e <;> rfl

theorem stationCoerce_list (xs : List PyVal) :
    stationCoerce (.list xs) = coerceLoop stationElem xs := rfl

theorem mainCoerce_list (known : List (String × String)) (xs : List PyVal) :
    mainCoerce known (.list xs) = coerceLoop (mainElem known) xs := rfl

theorem coerceLoop_single (elem : PyVal → Except PyErr (Option GenreEntry)) (x : PyVal) :
    coerceLoop elem [x] =
      match elem x with
      | .error e => .error e
      | .ok g => .ok (match g with | some e => [e] | none => []) := by
  simp only [coerceLoop]
  rcases hx : elem x with e | g
  · rfl
  · rcases g with _ | e <;> rfl

theorem pyStripStr_empty : pyStripStr "" = "" := rfl

theorem coerceDictElem_id_str (i : String) :
    coerceDictElem [(.str "id", .str i)] =
      .ok (if pyStripStr i = "" then Option.none
           else some ⟨pyStripStr i, .str (labelChainDefault (pyStripStr i))⟩) := by
  by_cases hi : i = ""
  · subst hi
    rfl
  · have hid : dictGet [(.str "id", .str i)] "id" = some (.str i) := by
      simp [dictGet, List.find?]
    have hlb : dictGet [(.str "id", .str i)] "label" = Option.none := by
      simp [dictGet, List.find?]
    have htr : pyTruthy (.str i) = true := by
      simp [pyTruthy, hi]
    simp only [coerceDictElem, hid, hlb, Option.getD_some, Option.getD_none, htr, if_pos]
    by_cases hg : pyStripStr i = ""
    · simp [hg]
    · simp [hg, pyTruthy]

theorem stationCoerce_str_single (s : String) :
    stationCoerce (.list [.str s]) =
      .ok (if pyStripStr s = "" then []
           else [⟨pyStripStr s, .str (labelChainDefault (pyStripStr s))⟩]) := by
  rw [stationCoerce_list, coerceLoop_single]
  simp only [stationElem]
  by_cases hg : pyStripStr s = ""
  · simp [hg]
  · simp [hg]

theorem mainCoerce_str_single (known : List (String × String)) (s : String) :
    mainCoerce known (.list [.str s]) =
      .ok (if pyStripStr s = "" then []
           else [⟨pyStripStr s, .str (labelChainKnown known (pyStripStr s))⟩]) := by
  rw [mainCoerce_list, coerceLoop_single]
  simp only [mainElem]
  by_cases hg : pyStripStr s = ""
  · simp [hg]
  · simp [hg]

theorem stationCoerce_idRecord_single (i : String) :
    stationCoerce (.list [.dict [(.str "id", .str i)]]) =
      .ok (if pyStripStr i = "" then []
           else [⟨pyStripStr i, .str (labelChainDefault (pyStripStr i))⟩]) := by
  rw [stationCoerce_list, coerceLoop_single]
  show (match coerceDictElem [(.str "id", .str i)] with
    | .error e => Except.error e
    | .ok g => Except.ok (match g with | some e => [e] | none => [])) = _
  rw [coerceDictElem_id_str]
  by_cases hg : pyStripStr i = ""
  · simp [hg]
  · simp [hg]

theorem mainCoerce_idRecord_single (known : List (String × String)) (i : String) :
    mainCoerce known (.list [.dict [(.str "id", .str i)]]) =
      .ok (if pyStripStr i = "" then []
           else [⟨pyStripStr i, .str (labelChainDefault (pyStripStr i))⟩]) := by
  rw [mainCoerce_list, coerceLoop_single]
  show (match coerceDictElem [(.str "id", .str i)] with
    | .error e => Except.error e
    | .ok g => Except.ok (match g with | some e => [e] | none => [])) = _
  rw [coerceDictElem_id_str]
  by_cases hg : pyStripStr i = ""
  · simp [hg]
  · simp [hg]

/-! ## Totality on well-shaped payloads -/


theorem exists_ok_ite {a : Type} (c : Prop) [Decidable c] (x y : a) :
    ∃ r, (if c then (Except.ok x : Except PyErr a) else .ok y) = .ok r := by
  by_cases hc : c
  · exact ⟨x, by rw [if_pos hc]⟩
  · exact ⟨y, by rw [if_neg hc]⟩

theorem coerceDictElem_total (d : List (PyVal × PyVal)) (h : wsElem (.dict d) = true) :
    ∃ r, coerceDictElem d = .ok r := by
  simp only [wsElem] at h
  unfold coerceDictElem
  simp only []
  by_cases ht : pyTruthy ((dictGet d "id").getD .none) = true
  · rw [if_pos ht] at h
    rw [if_pos ht]
    rcases hv : (dictGet d "id").getD .none with _ | b | n | q | s | xs | dd | o <;>
        rw [hv] at h <;> try simp at h
    exact exists_ok_ite _ _ _
  · rw [if_neg ht] at h
    rw [if_neg ht]
    rcases hl : (dictGet d "label").getD (.str "") with _ | b | n | q | s | xs | dd | o <;>
        rw [hl] at h <;> try simp at h
    exact exists_ok_ite _ _ _

theorem stationElem_total (x : PyVal) (h : wsElem x = true) :
    ∃ r, stationElem x = .ok r := by
  rcases x with _ | b | n | q | s | xs | d | o
  case dict => exact coerceDictElem_total d h
  case str =>
    simp only [stationElem]
    by_cases hg : pyStripStr s = ""
    · exact ⟨_, by rw [if_pos hg]⟩
    · exact ⟨_, by rw [if_neg hg]⟩
  all_goals exact ⟨_, rfl⟩

theorem mainElem_total (known : List (String × String)) (x : PyVal) (h : wsElem x = true) :
    ∃ r, mainElem known x = .ok r := by
  rcases x with _ | b | n | q | s | xs | d | o
  case dict => exact coerceDictElem_total d h
  case str =>
    simp only [mainElem]
    by_cases hg : pyStripStr s = ""
    · exact ⟨_, by rw [if_pos hg]⟩
    · exact ⟨_, by rw [if_neg hg]⟩
  all_goals exact ⟨_, rfl⟩

theorem coerceLoop_total (elem : PyVal → Except PyErr (Option GenreEntry))
    (helem : ∀ x, wsElem x = true → ∃ r, elem x = .ok r) (xs : List PyVal)
    (h : xs.all wsElem = true) : ∃ gs, coerceLoop elem xs = .ok gs := by
  induction xs with
  | nil => exact ⟨[], rfl⟩
  | cons x t ih =>
    rw [List.all_cons, Bool.and_eq_true] at h
    obtain ⟨g, hg⟩ := helem x h.1
    obtain ⟨gs, hgs⟩ := ih h.2
    simp only [coerceLoop, hg, hgs]
    rcases g with _ | e
    · exact ⟨gs, rfl⟩
    · exact ⟨e :: gs, rfl⟩

theorem mem_insSorted (x y : Int × PyVal) (l : List (Int × PyVal))
    (h : y ∈ insSorted x l) : y = x ∨ y ∈ l := by
  induction l with
  | nil =>
    simp [insSorted] at h
    exact Or.inl h
  | cons a t ih =>
    simp only [insSorted] at h
    by_cases hc : x.1 ≤ a.1
    · rw [if_pos hc] at h
      rcases List.mem_cons.mp h with h | h
      · exact Or.inl h
      · exact Or.inr h
    · rw [if_neg hc] at h
      rcases List.mem_cons.mp h with h | h
      · exact Or.inr (List.mem_cons.mpr (Or.inl h))
      · rcases ih h with h | h
        · exact Or.inl h
        · exact Or.inr (List.mem_cons.mpr (Or.inr h))

theorem mem_sortByIntKey (y : Int × PyVal) (l : List (Int × PyVal))
    (h : y ∈ sortByIntKey l) : y ∈ l := by
  induction l with
  | nil =>
    simp [sortByIntKey] at h
  | cons a t ih =>
    simp only [sortByIntKey] at h
    rcases mem_insSorted a y _ h with h | h
    · exact List.mem_cons.mpr (Or.inl h)
    · exact List.mem_cons.mpr (Or.inr (ih h))

theorem mapIntKeys_values (entries : List (PyVal × PyVal)) (keyed : List (Int × PyVal))
    (h : mapIntKeys entries = .ok keyed) : keyed.map (·.2) = entries.map (·.2) := by
  induction entries generalizing keyed with
  | nil =>
    simp only [mapIntKeys] at h
    injection h with h
    subst h
    rfl
  | cons kv t ih =>
    simp only [mapIntKeys] at h
    rcases hn : pyInt kv.1 with e | n <;> rw [hn] at h
    · exact absurd h (by simp)
    · rcases hr : mapIntKeys t with e | r <;> rw [hr] at h
      · exact absurd h (by simp)
      · injection h with h
        subst h
        simp [ih r hr]

theorem coercePostText_total (elem : PyVal → Except PyErr (Option GenreEntry))
    (helem : ∀ x, wsElem x = true → ∃ r, elem x = .ok r) (v : PyVal)
    (h : wsParsed v = true) : ∃ gs, coercePostText elem v = .ok gs := by
  rcases v with _ | b | n | q | s | xs | d | o
  case list =>
    exact coerceLoop_total elem helem xs h
  case dict =>
    simp only [wsParsed] at h
    simp only [coercePostText, coerceDictStage]
    rcases hk : mapIntKeys d with e | keyed
    · exact coerceLoop_total elem helem _ h
    · refine coerceLoop_total elem helem _ ?_
      rw [List.all_eq_true] at h ⊢
      intro x hx
      rcases List.mem_map.mp hx with ⟨p, hp, hpx⟩
      have hpv : p.2 ∈ keyed.map (·.2) := List.mem_map.mpr ⟨p, mem_sortByIntKey p keyed hp, rfl⟩
      rw [mapIntKeys_values d keyed hk] at hpv
      exact hpx ▸ h _ hpv
  all_goals exact ⟨[], rfl⟩

theorem tokens_all_ws (l : List Char) :
    ((splitPyTokens l).filterMap (fun p =>
      let q := pyStripChars p
      if q = [] then Option.none else some (PyVal.str q.asString))).all wsElem = true := by
  rw [List.all_eq_true]
  intro x hx
  rcases List.mem_filterMap.mp hx with ⟨p, _, hpx⟩
  by_cases hq : pyStripChars p = []
  · simp [hq] at hpx
  · simp only [hq, if_neg, if_false] at hpx
    injection hpx with h
    rw [← h]
    rfl

theorem coerceTextStage_ws (s0 : String) (h : wsPayload (.str s0) = true) :
    wsParsed (coerceTextStage s0) = true := by
  simp only [wsPayload] at h
  unfold coerceTextStage
  simp only []
  rcases hl : (pyStripStr s0).toList with _ | ⟨c, rest⟩ <;> rw [hl] at h
  · exact tokens_all_ws _
  · simp only [] at h
    by_cases hbr : c = '[' ∨ c = lbrace
    · rw [if_pos hbr] at h
      simp only []
      rw [if_pos hbr]
      rcases hj : jsonLoads (pyStripStr s0) with e | v <;> rw [hj] at h
      · exact tokens_all_ws _
      · rcases v with _ | b | n | q | s | xs | d | o
        all_goals first
          | rfl
          | exact tokens_all_ws (c :: rest)
          | simpa [wsParsed] using h
    · simp only []
      rw [if_neg hbr]
      exact tokens_all_ws _

/-- Totality of the station-page coercion on well-shaped payloads. -/
theorem stationCoerce_total (p : PyVal) (h : wsPayload p = true) :
    ∃ gs, stationCoerce p = .ok gs := by
  rcases p with _ | b | n | q | s0 | xs | d | o
  case none => exact ⟨[], rfl⟩
  case str =>
    exact coercePostText_total stationElem stationElem_total _ (coerceTextStage_ws s0 h)
  case list => exact coercePostText_total stationElem stationElem_total (.list xs) h
  case dict => exact coercePostText_total stationElem stationElem_total (.dict d) h
  all_goals exact ⟨[], rfl⟩

/-! ## Base64 / signature structure -/

theorem b64char_not_space (n : Nat) : isPySpace (b64char n) = false := by
  unfold b64char
  rcases Nat.lt_or_ge n b64alphabet.length with h | h
  · have hmem : b64alphabet.getD n '=' ∈ b64alphabet := by
      rw [List.getD_eq_getElem b64alphabet '=' h]
      exact List.getElem_mem h
    revert hmem
    have : ∀ c ∈ b64alphabet, isPySpace c = false := by decide
    intro hmem
    exact this _ hmem
  · rw [List.getD_eq_default b64alphabet '=' h]
    decide

theorem b64chars_not_space : ∀ (bs : List Nat), ∀ c ∈ b64chars bs, isPySpace c = false
  | a :: b :: cc :: rest => by
    intro c hc
    simp only [b64chars, List.mem_cons] at hc
    rcases hc with h | h | h | h | h
    · exact h ▸ b64char_not_space _
    · exact h ▸ b64char_not_space _
    · exact h ▸ b64char_not_space _
    · exact h ▸ b64char_not_space _
    · exact b64chars_not_space rest c h
  | [a, b] => by
    intro c hc
    simp only [b64chars, List.mem_cons] at hc
    rcases hc with h | h | h | h | h
    · exact h ▸ b64char_not_space _
    · exact h ▸ b64char_not_space _
    · exact h ▸ b64char_not_space _
    · subst h; decide
    · simp at h
  | [a] => by
    intro c hc
    simp only [b64chars, List.mem_cons] at hc
    rcases hc with h | h | h | h | h
    · exact h ▸ b64char_not_space _
    · exact h ▸ b64char_not_space _
    · subst h; decide
    · subst h; decide
    · simp at h
  | [] => by
    intro c hc
    simp [b64chars] at hc

theorem pyStripChars_eq_self_of (l : List Char) (h : ∀ c ∈ l, isPySpace c = false) :
    pyStripChars l = l := by
  unfold pyStripChars
  rw [dropWhile_eq_self_of _ _ h]
  exact dropEndWhile_eq_self_of _ _ h

theorem pyStripStr_b64encode (bs : List Nat) :
    pyStripStr (b64encode bs) = b64encode bs := by
  unfold pyStripStr b64encode
  rw [List.toList_asString]
  rw [pyStripChars_eq_self_of _ (b64chars_not_space bs)]

theorem natToBytesBE_length (n x : Nat) : (natToBytesBE n x).length = n := by
  induction n generalizing x with
  | zero => rfl
  | succ k ih => simp [natToBytesBE, ih]

theorem sha512_length (msg : List Nat) : (sha512 msg).length = 64 := by
  unfold sha512
  rcases (blocksOf (sha512Pad msg)).foldl sha512Block sha512Init with
    ⟨a, b, c, d, e, f, g, h⟩
  simp [natToBytesBE_length]

theorem b64chars_ne_nil (bs : List Nat) (h : bs ≠ []) : b64chars bs ≠ [] := by
  match bs with
  | [] => exact absurd rfl h
  | [a] => simp [b64chars]
  | [a, b] => simp [b64chars]
  | a :: b :: c :: rest => simp [b64chars]

theorem b64encode_ne_empty (bs : List Nat) (h : bs ≠ []) : b64encode bs ≠ "" := by
  unfold b64encode
  intro hcon
  have : (b64chars bs).asString.toList = "".toList := by rw [hcon]
  rw [List.toList_asString] at this
  simp at this
  exact b64chars_ne_nil bs h this

theorem sha512_ne_nil (msg : List Nat) : sha512 msg ≠ [] := by
  intro h
  have := sha512_length msg
  rw [h] at this
  simp at this

/-- `ApiClient._sign` never returns the empty string: the HMAC digest has 64
bytes whatever the key, so the Base64 text is non-empty. -/
theorem apiClientSign_ne_empty (key method path body ts : String) :
    apiClientSign key method path body ts ≠ "" := by
  unfold apiClientSign hmacSha512
  rw [pyStripStr_b64encode]
  exact b64encode_ne_empty _ (sha512_ne_nil _)

theorem utf8Str_append (a b : String) : utf8Str (a ++ b) = utf8Str a ++ utf8Str b := by
  unfold utf8Str
  show (a ++ b).data.flatMap utf8Char = a.data.flatMap utf8Char ++ b.data.flatMap utf8Char
  rw [String.data_append, List.flatMap_append]

/-- `slugify` output contains no whitespace, so `.strip()` leaves it
unchanged. -/
theorem pyStripStr_slugify (L : String) : pyStripStr (slugify L) = slugify L := by
  obtain ⟨hc, -, -⟩ := slugify_canonical L
  obtain ⟨hg, -, -, -⟩ := canonicalSlug_parts hc
  unfold pyStripStr
  rw [pyStripChars_eq_self_of _ (fun c hcm =>
    goodSlugChar_not_space (List.all_eq_true.mp hg c hcm))]
  exact String.asString_toList (slugify L)

/-- Record element with no `id` key: the id is derived via `slugify(label)`
and the element is kept (with the record's own label) exactly when that slug
is non-empty after trimming. -/
theorem coerceDictElem_label_str (L : String) :
    coerceDictElem [(.str "label", .str L)] =
      .ok (if slugify L = "" then Option.none else some ⟨slugify L, .str L⟩) := by
  have hid : dictGet [(.str "label", .str L)] "id" = Option.none := by
    simp [dictGet, List.find?]
  have hlb : dictGet [(.str "label", .str L)] "label" = some (.str L) := by
    simp [dictGet, List.find?]
  simp only [coerceDictElem, hid, hlb, Option.getD_none, Option.getD_some]
  rw [if_neg (by decide)]
  simp only []
  rw [pyStripStr_slugify]
  by_cases hg : slugify L = ""
  · simp [hg]
  · have hL : L ≠ "" := fun h => hg (by rw [h]; rfl)
    simp [hg, pyTruthy, hL]

/-- Record element whose `id` key is present but falsy (the empty string):
same slug-derivation path as an absent `id`. -/
theorem coerceDictElem_emptyId_label_str (L : String) :
    coerceDictElem [(.str "id", .str ""), (.str "label", .str L)] =
      .ok (if slugify L = "" then Option.none else some ⟨slugify L, .str L⟩) := by
  have hid : dictGet [(.str "id", .str ""), (.str "label", .str L)] "id" =
      some (.str "") := by
    simp [dictGet, List.find?]
  have hlb : dictGet [(.str "id", .str ""), (.str "label", .str L)] "label" =
      some (.str L) := by
    simp [dictGet, List.find?]
  simp only [coerceDictElem, hid, hlb, Option.getD_some]
  rw [if_neg (by decide)]
  simp only []
  rw [pyStripStr_slugify]
  by_cases hg : slugify L = ""
  · simp [hg]
  · have hL : L ≠ "" := fun h => hg (by rw [h]; rfl)
    simp [hg, pyTruthy, hL]

theorem stationElem_dict (d : List (PyVal × PyVal)) :
    stationElem (.dict d) = coerceDictElem d := rfl

theorem stationCoerce_labelRecord_single (L : String) :
    stationCoerce (.list [.dict [(.str "label", .str L)]]) =
      .ok (if slugify L = "" then [] else [⟨slugify L, .str L⟩]) := by
  rw [stationCoerce_list, coerceLoop_single, stationElem_dict, coerceDictElem_label_str]
  by_cases hg : slugify L = ""
  · simp [hg]
  · simp [hg]

theorem stationCoerce_emptyIdRecord_single (L : String) :
    stationCoerce (.list [.dict [(.str "id", .str ""), (.str "label", .str L)]]) =
      .ok (if slugify L = "" then [] else [⟨slugify L, .str L⟩]) := by
  rw [stationCoerce_list, coerceLoop_single, stationElem_dict, coerceDictElem_emptyId_label_str]
  by_cases hg : slugify L = ""
  · simp [hg]
  · simp [hg]

/-! ## Claim theorems -/

/-- C1 counterexample: the claim "coerceGenrePayload is total and never
raises on elements of the wrong type" is false as stated — a sequence
containing the record `{"id": 5}` raises `AttributeError` (`.strip()` on a
non-string), in both revisions of the routine. -/
theorem coerceCounterexampleIntId :
    stationCoerce (.list [.dict [(.str "id", .int 5)]]) = .error .attributeError ∧
    mainCoerce [] (.list [.dict [(.str "id", .int 5)]]) = .error .attributeError :=
  ⟨rfl, rfl⟩

/-- C1 (amended): `coerceGenrePayload` returns a best-effort list without
raising for every payload (None, text, mapping, sequence, wrong-typed
elements, records with missing fields, unparsable text) **provided** every
record element's truthy `id` is a string and, when `id` is absent or falsy,
its `label` is a string; in particular `coerceGenrePayload(None)` and
`coerceGenrePayload([])` both return the empty list. -/
theorem coerceGenrePayload_total_on_well_shaped :
    (∀ p, wsPayload p = true → ∃ gs, stationCoerce p = .ok gs) ∧
    stationCoerce .none = .ok [] ∧ stationCoerce (.list []) = .ok [] :=
  ⟨stationCoerce_total, rfl, rfl⟩

/-- Witness for C1: a concrete text payload is well-shaped and coerces
without raising. -/
theorem coerceGenrePayload_total_witness :
    wsPayload (.str "jazz blues") = true ∧
    ∃ gs, stationCoerce (.str "jazz blues") = .ok gs :=
  ⟨by decide, coerceGenrePayload_total_on_well_shaped.1 (.str "jazz blues") (by decide)⟩

/-- C2 counterexample: with the empty secret key, `ApiClient._sign` does not
return the empty string (it computes the HMAC with the empty key). -/
theorem apiClientSign_empty_key_counterexample :
    apiClientSign "" "GET" "/config" "" "0" ≠ "" :=
  apiClientSign_ne_empty "" "GET" "/config" "" "0"

/-- C2 (amended): with an empty secret key,
`MainWindow._generate_hmac_signature` returns the empty string for every
method, path, body and timestamp, but `ApiClient._sign` has no such guard
and always returns a non-empty Base64 HMAC-SHA512 signature computed with
the empty key. -/
theorem emptyKey_signature_behavior :
    (∀ method path body ts, generateHmacSignature "" method path body ts = "") ∧
    (∀ method path body ts, apiClientSign "" method path body ts ≠ "") :=
  ⟨fun _ _ _ _ => by unfold generateHmacSignature; rw [if_pos rfl],
   fun m p b ts => apiClientSign_ne_empty "" m p b ts⟩

/-- Witness for C2: the amended claim at one concrete input. -/
theorem emptyKey_signature_witness :
    generateHmacSignature "" "GET" "/config" "" "1" = "" ∧
    apiClientSign "" "GET" "/config" "" "1" ≠ "" :=
  ⟨emptyKey_signature_behavior.1 "GET" "/config" "" "1",
   emptyKey_signature_behavior.2 "GET" "/config" "" "1"⟩

/-- C3: `getConfigField` on HTTP 400 always returns the synthetic
`{field, value: ""}` record and never the failure sentinel; every other
HTTP error status and every transport-level failure returns the sentinel
`none`, which differs from every success and from the 400 result. -/
theorem getConfigField_error_contract :
    ∀ (field body msg : String) (code : Nat),
      getConfigField field (.httpError 400 body) =
        some (.dict [(.str "field", .str field), (.str "value", .str "")]) ∧
      getConfigField field (.httpError 400 body) ≠ Option.none ∧
      (code ≠ 400 → getConfigField field (.httpError code body) = Option.none) ∧
      getConfigField field (.exn msg) = Option.none ∧
      (∀ st okbody v, getConfigField field (.ok st okbody) = some v →
        getConfigField field (.ok st okbody) ≠ Option.none) := by
  intro field body msg code
  refine ⟨rfl, by simp [getConfigField], fun hc => ?_, rfl, fun st okbody v hv => ?_⟩
  · simp [getConfigField, hc]
  · rw [hv]
    simp

/-- Witness for C3: a concrete non-400 error yields the failure sentinel. -/
theorem getConfigField_error_contract_witness :
    getConfigField "genres" (.httpError 500 "oops") = Option.none :=
  (getConfigField_error_contract "genres" "oops" "timeout" 500).2.2.1 (by decide)

set_option maxRecDepth 1000000 in
/-- C4: the request signature is the standard Base64 encoding (whitespace
strip being the identity on it) of the raw HMAC-SHA512 digest, keyed by the
secret key, of the delimiter-free concatenation
timestamp ++ uppercased method ++ path ++ body; signing is deterministic,
and perturbing each of the five inputs changes the signature. -/
theorem sign_spec :
    (∀ key method path body ts, headerSign key method path body ts =
      b64encode (hmacSha512 (utf8Str key)
        (utf8Str ts ++ utf8Str (pyUpper method) ++ utf8Str path ++ utf8Str body))) ∧
    (∀ k₁ k₂ m₁ m₂ p₁ p₂ b₁ b₂ t₁ t₂, k₁ = k₂ → m₁ = m₂ → p₁ = p₂ → b₁ = b₂ → t₁ = t₂ →
      headerSign k₁ m₁ p₁ b₁ t₁ = headerSign k₂ m₂ p₂ b₂ t₂) ∧
    headerSign "k" "GET" "/config" "" "10" ≠ headerSign "kk" "GET" "/config" "" "10" ∧
    headerSign "k" "GET" "/config" "" "10" ≠ headerSign "k" "POST" "/config" "" "10" ∧
    headerSign "k" "GET" "/config" "" "10" ≠ headerSign "k" "GET" "/config2" "" "10" ∧
    headerSign "k" "GET" "/config" "" "10" ≠ headerSign "k" "GET" "/config" "x" "10" ∧
    headerSign "k" "GET" "/config" "" "10" ≠ headerSign "k" "GET" "/config" "" "11" := by
  refine ⟨fun key method path body ts => ?_,
    fun k₁ k₂ m₁ m₂ p₁ p₂ b₁ b₂ t₁ t₂ hk hm hp hb ht => by rw [hk, hm, hp, hb, ht],
    ?_, ?_, ?_, ?_, ?_⟩
  · unfold headerSign apiClientSign
    rw [pyStripStr_b64encode, utf8Str_append, utf8Str_append, utf8Str_append]
  all_goals decide

/-- Witness for C4: determinism applied at one concrete input. -/
theorem sign_spec_witness :
    headerSign "k" "GET" "/config" "" "10" = headerSign "k" "GET" "/config" "" "10" :=
  sign_spec.2.1 "k" "k" "GET" "GET" "/config" "/config" "" "" "10" "10"
    rfl rfl rfl rfl rfl

theorem jsonDumps_fieldValue (f s : String) :
    jsonDumps (.dict [(.str "field", .str f), (.str "value", .str s)]) =
      .ok (String.mk [lbrace] ++
        joinWith "," [jsonQuote "field" ++ ":" ++ jsonQuote f,
          jsonQuote "value" ++ ":" ++ jsonQuote s] ++ String.mk [rbrace]) := rfl

theorem bindES_ok {a b : Type} (x : a) (f : a → Except PyErr b) :
    (Except.ok x : Except PyErr a) >>= f = f x := rfl

theorem jsonDumpsSeq_cons (x : PyVal) (t : List PyVal) :
    jsonDumpsSeq (x :: t) =
      jsonDumps x >>= fun s => jsonDumpsSeq t >>= fun r => .ok (s :: r) := rfl

theorem jsonDumps_list (l : List PyVal) :
    jsonDumps (.list l) =
      jsonDumpsSeq l >>= fun parts => .ok ("[" ++ joinWith "," parts ++ "]") := rfl

theorem coerceValueText_str (v : PyVal) : ∃ s, coerceValueText v = PyVal.str s := by
  rcases v with _ | b | n | q | s | xs | d | o <;> exact ⟨_, rfl⟩

theorem jsonDumpsSeq_payload_ok (xs : List (String × PyVal))
    (h : ∀ u ∈ xs, ∃ s, u.2 = PyVal.str s) :
    ∃ parts, jsonDumpsSeq (xs.map (fun u =>
      PyVal.dict [(.str "field", .str u.1), (.str "value", u.2)])) = .ok parts := by
  induction xs with
  | nil => exact ⟨[], rfl⟩
  | cons u t ih =>
    obtain ⟨s, hs⟩ := h u (by simp)
    obtain ⟨parts, hp⟩ := ih (fun v hv => h v (by simp [hv]))
    rw [List.map_cons, jsonDumpsSeq_cons, hs, jsonDumps_fieldValue, bindES_ok, hp, bindES_ok]
    exact ⟨_, rfl⟩

theorem jsonDumps_allStrVals (xs : List (String × PyVal))
    (h : ∀ u ∈ xs, ∃ s, u.2 = PyVal.str s) :
    ∃ body, jsonDumps (patchPayload xs) = .ok body := by
  obtain ⟨parts, hp⟩ := jsonDumpsSeq_payload_ok xs h
  unfold patchPayload
  rw [jsonDumps_list, hp, bindES_ok]
  exact ⟨_, rfl⟩

theorem patchBody_total (updates : List (String × PyVal)) :
    ∃ body, patchBody updates = .ok body := by
  unfold patchBody
  rcases h1 : jsonDumps (patchPayload updates) with e | b
  · refine jsonDumps_allStrVals _ (fun v hv => ?_)
    rcases List.mem_map.mp hv with ⟨w, _, hw⟩
    obtain ⟨s, hsv⟩ := coerceValueText_str w.2
    exact ⟨s, by rw [← hw]; exact hsv⟩
  · exact ⟨b, rfl⟩

/-- C5: `patchConfigBulk` never raises: for every updates list — including
lists with values that are not JSON-serializable, which are stringified
(`None` becoming `""`) and serialized a second time — and every transport
outcome, it returns a well-formed `(ok, statusCode, responseText)` tuple,
with status code 0 when no HTTP response was received and the HTTP code on
an error response. -/
theorem patchConfigBulk_total :
    ∀ (updates : List (String × PyVal)) (r : UrlOpenResult),
      (∃ t, patchConfigBulk updates r = .ok t) ∧
      (∀ msg, patchConfigBulk updates (.exn msg) = .ok (false, 0, msg)) ∧
      (∀ code text, patchConfigBulk updates (.httpError code text) = .ok (false, code, text)) := by
  intro updates r
  obtain ⟨body, hb⟩ := patchBody_total updates
  unfold patchConfigBulk
  rw [hb]
  refine ⟨?_, fun msg => rfl, fun code text => rfl⟩
  rcases r with ⟨st, text⟩ | ⟨code, text⟩ | msg
  · exact ⟨_, rfl⟩
  · exact ⟨_, rfl⟩
  · exact ⟨_, rfl⟩

/-- C6 counterexample: for a record element whose label is absent, the code
skips the previously-known id-to-label mapping.  With `id_to_label` mapping
`"xyzzy"` to `"My Xyzzy"` (and `"xyzzy"` not in the default catalog), the
claimed chain would yield `"My Xyzzy"`, but the record branch falls straight
through to humanize and yields `"Xyzzy"`. -/
theorem recordLabel_skips_known_mapping :
    mainCoerce [("xyzzy", "My Xyzzy")] (.list [.dict [(.str "id", .str "xyzzy")]]) =
      .ok [⟨"xyzzy", .str "Xyzzy"⟩] ∧
    labelChainKnown [("xyzzy", "My Xyzzy")] "xyzzy" = "My Xyzzy" ∧
    "Xyzzy" ≠ "My Xyzzy" :=
  ⟨rfl, rfl, by decide⟩

/-- C6 (amended): in main_window's coercion a bare-string element's label is
resolved by the default catalog, then the previously known id-to-label
mapping, then humanize (first truthy match); a record element whose label is
absent instead uses only the default catalog then humanize — the known
mapping is not consulted; station_info_page's revision never consults a
known mapping (both branches use catalog then humanize). -/
theorem label_resolution_chains :
    (∀ known s, mainCoerce known (.list [.str s]) =
      .ok (if pyStripStr s = "" then []
           else [⟨pyStripStr s, .str (labelChainKnown known (pyStripStr s))⟩])) ∧
    (∀ known i, mainCoerce known (.list [.dict [(.str "id", .str i)]]) =
      .ok (if pyStripStr i = "" then []
           else [⟨pyStripStr i, .str (labelChainDefault (pyStripStr i))⟩])) ∧
    (∀ s, stationCoerce (.list [.str s]) =
      .ok (if pyStripStr s = "" then []
           else [⟨pyStripStr s, .str (labelChainDefault (pyStripStr s))⟩])) :=
  ⟨mainCoerce_str_single, mainCoerce_idRecord_single, stationCoerce_str_single⟩

/-- C8: the four canonical slug examples. -/
theorem slugify_examples :
    slugify "R&B" = "rnb" ∧ slugify "R & B" = "rnb" ∧
    slugify "Drum & Bass" = "drum_and_bass" ∧ slugify "  Lo-Fi  " = "lo_fi" :=
  ⟨rfl, rfl, rfl, rfl⟩

/-- C9: on sequence payloads the coercion processes elements independently
in input order (so output order follows input order and duplicate ids are
kept, shown also on a concrete duplicated id), and an element is dropped
exactly when its derived id is empty after trimming: bare strings drop
exactly when the string strips to empty, records with a truthy string `id`
exactly when that id strips to empty, records whose id is derived via
`slugify(label)` (absent or falsy `id`) exactly when the slug is empty
(`{"label": "??"}` is dropped, `{"label": "Custom Wave"}` is kept), and
other-typed elements yield no id and are skipped. -/
theorem sequence_order_dedup_drop :
    (∀ xs ys, stationCoerce (.list (xs ++ ys)) =
      match stationCoerce (.list xs), stationCoerce (.list ys) with
      | .ok a, .ok b => .ok (a ++ b)
      | .error e, _ => .error e
      | .ok _, .error e => .error e) ∧
    (∀ s, stationCoerce (.list [.str s]) =
      .ok (if pyStripStr s = "" then []
           else [⟨pyStripStr s, .str (labelChainDefault (pyStripStr s))⟩])) ∧
    (∀ i, stationCoerce (.list [.dict [(.str "id", .str i)]]) =
      .ok (if pyStripStr i = "" then []
           else [⟨pyStripStr i, .str (labelChainDefault (pyStripStr i))⟩])) ∧
    (∀ L, stationCoerce (.list [.dict [(.str "label", .str L)]]) =
      .ok (if slugify L = "" then [] else [⟨slugify L, .str L⟩])) ∧
    (∀ L, stationCoerce (.list [.dict [(.str "id", .str ""), (.str "label", .str L)]]) =
      .ok (if slugify L = "" then [] else [⟨slugify L, .str L⟩])) ∧
    stationCoerce (.list [.dict [(.str "label", .str "??")]]) = .ok [] ∧
    stationCoerce (.list [.dict [(.str "label", .str "Custom Wave")]]) =
      .ok [⟨"custom_wave", .str "Custom Wave"⟩] ∧
    (∀ (n : Int) (x : Bool), stationElem (.int n) = .ok Option.none ∧
      stationElem (.bool x) = .ok Option.none) ∧
    stationCoerce (.list [.str "jazz", .str "jazz"]) =
      .ok [⟨"jazz", .str "Jazz"⟩, ⟨"jazz", .str "Jazz"⟩] := by
  refine ⟨fun xs ys => ?_, stationCoerce_str_single, stationCoerce_idRecord_single,
    stationCoerce_labelRecord_single, stationCoerce_emptyIdRecord_single,
    rfl, rfl, fun n x => ⟨rfl, rfl⟩, rfl⟩
  rw [stationCoerce_list, stationCoerce_list, stationCoerce_list]
  exact coerceLoop_append stationElem xs ys

/-- C10: the two duplicated signing routines agree whenever the secret key
is non-empty. -/
theorem sign_routines_agree :
    ∀ key method path body ts, key ≠ "" →
      apiClientSign key method path body ts = generateHmacSignature key method path body ts := by
  intro key method path body ts h
  unfold generateHmacSignature
  rw [if_neg h]
  rfl

/-- Witness for C10: agreement at one concrete non-empty key. -/
theorem sign_routines_agree_witness :
    apiClientSign "k" "GET" "/config" "" "0" = generateHmacSignature "k" "GET" "/config" "" "0" :=
  sign_routines_agree "k" "GET" "/config" "" "0" (by decide)
